import Mathlib

/-!
Verification of the aiterminal repository: a shallow embedding of
`local_client.py`, `ssh_client.py` and the dispatch/parsing logic of
`AIDesktop/main.py`, together with theorems settling the frozen claims.

Python strings are modelled as `List Char`; Python library functions the
source relies on (`str.strip`, `str.split`, `str.replace`, `os.path.join`,
`os.path.normpath`, `os.path.expanduser`, `shlex.quote`, `shlex.split`,
`str.splitlines`) are modelled explicitly below, each with a comment noting
any simplification.
-/

set_option maxRecDepth 6000

namespace AITerminal

/-- Python strings, modelled as lists of characters. -/
abbrev PyStr := List Char

/-- Convert a Lean string literal to a `PyStr`. -/
def ofStr (s : String) : PyStr := s.data

/-- Python `str.isspace` for a single character: the whitespace characters
recognised by `str.strip` / `str.split` (ASCII subset). -/
def pyIsSpace (c : Char) : Bool :=
  c = ' ' || c = '\t' || c = '\n' || c = '\x0d' || c = '\x0b' || c = '\x0c'

/-- Python `str.strip()`: drop leading and trailing whitespace. -/
def pyStrip (s : PyStr) : PyStr :=
  ((s.dropWhile pyIsSpace).reverse.dropWhile pyIsSpace).reverse

/-- Python `str.split(sep)` for a one-character separator `sep`
(keeps empty fields, `"".split(sep) = [""]`). -/
def pySplitChar (sep : Char) : PyStr → List PyStr
  | [] => [[]]
  | c :: rest =>
    if c = sep then [] :: pySplitChar sep rest
    else
      match pySplitChar sep rest with
      | [] => [[c]]
      | h :: t => (c :: h) :: t

/-- Python `str.split('\n')`. -/
def pySplitNl (s : PyStr) : List PyStr := pySplitChar '\n' s

/-- Python `str.startswith(p)`. -/
def pyStartsWith : PyStr → PyStr → Bool
  | _, [] => true
  | [], _ :: _ => false
  | c :: s, p :: ps => c = p && pyStartsWith s ps

/-- Python `str.replace(pat, repl)` for a non-empty pattern
(an empty pattern leaves the string unchanged in this model).
Structural recursion on a fuel argument bounded by the string length,
so that the kernel can evaluate it. -/
def pyReplaceAux (pat repl : PyStr) : Nat → PyStr → PyStr
  | _, [] => []
  | 0, s => s
  | fuel + 1, c :: rest =>
    if pat ≠ [] ∧ pyStartsWith (c :: rest) pat then
      repl ++ pyReplaceAux pat repl fuel ((c :: rest).drop pat.length)
    else
      c :: pyReplaceAux pat repl fuel rest

/-- Python `str.replace(pat, repl)` (see `pyReplaceAux`). -/
def pyReplace (pat repl s : PyStr) : PyStr := pyReplaceAux pat repl s.length s

/-- Python `str.lower()` (ASCII). -/
def pyLower (s : PyStr) : PyStr := s.map Char.toLower

/-- Python `str.split()` with no argument: split on runs of whitespace,
no empty tokens.  Also models `shlex.split` on inputs containing no quote
or escape characters (the only inputs the claims exercise). -/
def wsSplitAux : PyStr → PyStr → List PyStr
  | [], acc => if acc = [] then [] else [acc.reverse]
  | c :: rest, acc =>
    if pyIsSpace c then
      if acc = [] then wsSplitAux rest [] else acc.reverse :: wsSplitAux rest []
    else wsSplitAux rest (c :: acc)

/-- Python whitespace split (see `wsSplitAux`). -/
def wsSplit (s : PyStr) : List PyStr := wsSplitAux s []

/-- `os.path.isabs` on POSIX: the path starts with a slash. -/
def isAbs (p : PyStr) : Bool :=
  match p with
  | '/' :: _ => true
  | _ => false

/-- `os.path.join(a, b)` on POSIX (two arguments). -/
def pyJoin (a b : PyStr) : PyStr :=
  if isAbs b then b
  else if a = [] then b
  else if a.getLast? = some '/' then a ++ b
  else a ++ '/' :: b

/-- One step of the component loop inside `os.path.normpath`; the
accumulator holds the components processed so far, in reverse order. -/
def normStep (slashes : Bool) (acc : List PyStr) (comp : PyStr) : List PyStr :=
  if comp = [] ∨ comp = ofStr "." then acc
  else if comp ≠ ofStr ".." ∨ (¬slashes ∧ acc = []) ∨
      (acc ≠ [] ∧ acc.headD [] = ofStr "..") then comp :: acc
  else if acc ≠ [] then acc.tail
  else acc

/-- The Python idiom `res or '.'` closing `os.path.normpath`. -/
def orDot (res : PyStr) : PyStr := if res = [] then ofStr "." else res

/-- `os.path.normpath` on POSIX: purely lexical normalisation. -/
def pyNormpath (path : PyStr) : PyStr :=
  if path = [] then ofStr "."
  else
    let slashes : Nat :=
      if pyStartsWith path (ofStr "//") ∧ ¬pyStartsWith path (ofStr "///") then 2
      else if pyStartsWith path (ofStr "/") then 1
      else 0
    let comps := pySplitChar '/' path
    let newComps := (comps.foldl (normStep (slashes > 0)) []).reverse
    orDot (List.replicate slashes '/' ++ List.intercalate (ofStr "/") newComps)

/-- `os.path.expanduser(home, path)`: expand a leading `~` to `home`
(`~user` lookup is not modelled; such paths are returned unchanged). -/
def pyExpanduser (home path : PyStr) : PyStr :=
  match path with
  | '~' :: rest =>
    if rest = [] then home
    else if rest.headD ' ' = '/' then home ++ rest
    else path
  | _ => path

/-- Python `str.splitlines()` modelled for the boundaries `\n`, `\r\n`
and `\r` (the exotic Unicode boundaries are not modelled). -/
def pySplitLines : PyStr → List PyStr
  | [] => []
  | '\x0d' :: '\n' :: rest => [] :: pySplitLines rest
  | '\n' :: rest => [] :: pySplitLines rest
  | '\x0d' :: rest => [] :: pySplitLines rest
  | c :: rest =>
    match pySplitLines rest with
    | [] => [[c]]
    | h :: t => (c :: h) :: t

/-- The characters `shlex.quote` considers safe: ASCII letters, digits,
underscore, and the characters at-sign, percent, plus, equals, colon,
comma, dot, slash, hyphen. -/
def shlexSafe (c : Char) : Bool :=
  c.isAlpha || c.isDigit || c = '_' || c = '@' || c = '%' || c = '+' ||
  c = '=' || c = ':' || c = ',' || c = '.' || c = '/' || c = '-'

/-- `shlex.quote(s)`. -/
def shlexQuote (s : PyStr) : PyStr :=
  if s = [] then ofStr "''"
  else if s.all shlexSafe then s
  else '\'' :: pyReplace (ofStr "'") (ofStr "'\"'\"'") s ++ ofStr "'"

/-- `shlex.split` modelled for inputs without quote or escape characters
(on such inputs it coincides with whitespace splitting and never raises). -/
def shlexSplit (s : PyStr) : List PyStr := wsSplit s

/-- Python list slice `l[-k:]`: the at most `k` last elements. -/
def pyLastSlice (k : Nat) (l : List α) : List α := l.drop (l.length - k)

/-! ## `AITerminalWindow.parse_ai_response` (AIDesktop/main.py) -/

/-- The label introducing the decision field of a model response. -/
def dLabel : PyStr := ofStr "DECISION:"

/-- The label introducing the command field of a model response. -/
def cLabel : PyStr := ofStr "COMMAND:"

/-- The label introducing the message field of a model response. -/
def rLabel : PyStr := ofStr "RESPONSE:"

/-- The loop state of `parse_ai_response`: the three fields being
extracted plus the `response_started` flag. -/
structure ParseState where
  decision : PyStr
  command : PyStr
  message : PyStr
  started : Bool
deriving DecidableEq

/-- The initial parser state: defaults CONVERSATION / NONE / empty. -/
def parseInit : ParseState :=
  ⟨ofStr "CONVERSATION", ofStr "NONE", ofStr "", false⟩

/-- One iteration of the line loop in `parse_ai_response`. -/
def parseLine (st : ParseState) (line : PyStr) : ParseState :=
  if pyStartsWith line dLabel then
    { st with decision := pyStrip (pyReplace dLabel (ofStr "") line), started := false }
  else if pyStartsWith line cLabel then
    { st with command := pyStrip (pyReplace cLabel (ofStr "") line), started := false }
  else if pyStartsWith line rLabel then
    { st with message := pyStrip (pyReplace rLabel (ofStr "") line), started := true }
  else if st.started then
    { st with message := st.message ++ '\n' :: line }
  else st

/-- The line loop of `parse_ai_response`. -/
def parseLines (ls : List PyStr) : ParseState := ls.foldl parseLine parseInit

/-- `AITerminalWindow.parse_ai_response`: split the stripped response on
newlines and scan the lines for the three labels. -/
def parse_ai_response (response : PyStr) : PyStr × PyStr × PyStr :=
  let st := parseLines (pySplitNl (pyStrip response))
  (st.decision, st.command, st.message)

/-- A response text made of three lines. -/
def mk3 (a b c : PyStr) : PyStr := a ++ '\n' :: (b ++ '\n' :: c)

/-- A label payload that keeps a labelled line on one line and does not
end in whitespace (so that the global `strip` of the response leaves the
line intact). -/
def goodPayload (p : PyStr) : Prop :=
  '\n' ∉ p ∧ p.getLast?.all (fun c => !pyIsSpace c) = true

instance (p : PyStr) : Decidable (goodPayload p) := by
  unfold goodPayload
  exact instDecidableAnd

/-- A non-empty string starting and ending in non-whitespace (so that
`strip` leaves it unchanged). -/
def solid (s : PyStr) : Prop :=
  s ≠ [] ∧ s.head?.all (fun c => !pyIsSpace c) = true ∧
    s.getLast?.all (fun c => !pyIsSpace c) = true

instance (s : PyStr) : Decidable (solid s) := by
  unfold solid
  exact instDecidableAnd

/-- A plain shell word: non-empty, without whitespace, command
separators, quotes or escapes (the fragment on which the `shlex.split`
model is exact). -/
def token (t : PyStr) : Prop :=
  t ≠ [] ∧ t.all (fun ch => !pyIsSpace ch && !(ch = ';') && !(ch = '&') &&
    !(ch = '\'') && !(ch = '"') && !(ch = '\\')) = true

instance (t : PyStr) : Decidable (token t) := by
  unfold token
  exact instDecidableAnd

/-! ## `LocalClient` (local_client.py)

The operating system is abstracted: `os.chdir` is an oracle deciding
whether a change of directory succeeds, and on a symlink-free filesystem
`os.getcwd()` after a successful `os.chdir(p)` (with `p` absolute) returns
`os.path.normpath(p)`, which is how the model computes the new tracked
directory.  `subprocess.run` is an oracle returning the outcome of the
spawned shell. -/

/-- Outcome of the `os.chdir` oracle: success, `FileNotFoundError`,
`PermissionError`, or any other exception with its `str(e)` text. -/
inductive ChdirOutcome
  | ok
  | notFound
  | permission
  | failure (msg : PyStr)
deriving DecidableEq

/-- Outcome of the `subprocess.run` oracle: normal completion with the
two output streams, `subprocess.TimeoutExpired`, or another exception. -/
inductive RunOutcome
  | finished (stdout stderr : PyStr)
  | timedOut
  | raised (msg : PyStr)
deriving DecidableEq

/-- The mutable state of a `LocalClient`. -/
structure LocalSt where
  current_directory : PyStr
  running_process : Option Unit
deriving DecidableEq

/-- Result of `LocalClient.execute_command`: the `(success, output)` pair,
the state after the call, and the commands handed to `subprocess.run`. -/
structure LocalRes where
  ok : Bool
  output : PyStr
  st : LocalSt
  ran : List PyStr
deriving DecidableEq

/-- The path a `cd` command resolves to in `LocalClient.execute_command`:
the target after the label, `~`-expanded, made absolute against the
tracked directory. -/
def localCdTarget (home cur stripped : PyStr) : PyStr :=
  let path0 := pyStrip (stripped.drop 3)
  let path1 := if path0 = [] then pyExpanduser home (ofStr "~")
               else pyExpanduser home path0
  if isAbs path1 then path1 else pyJoin cur path1

/-- `LocalClient.execute_command` (non-streaming mode; no
`output_callback`). `fs` is the `os.chdir` oracle, `home` the home
directory used by `os.path.expanduser`, `run` the `subprocess.run`
oracle. -/
def LocalClient.execute_command (fs : PyStr → ChdirOutcome) (home : PyStr)
    (run : PyStr → RunOutcome) (st : LocalSt) (command : PyStr) : LocalRes :=
  let stripped := pyStrip command
  if pyStartsWith (pyLower stripped) (ofStr "cd ") then
    let path2 := localCdTarget home st.current_directory stripped
    match fs path2 with
    | .ok => ⟨true, ofStr "", { st with current_directory := pyNormpath path2 }, []⟩
    | .notFound =>
      ⟨true, ofStr "cd: " ++ path2 ++ ofStr ": No such file or directory", st, []⟩
    | .permission =>
      ⟨true, ofStr "cd: " ++ path2 ++ ofStr ": Permission denied", st, []⟩
    | .failure msg => ⟨true, ofStr "cd: " ++ msg, st, []⟩
  else
    match run command with
    | .finished out err => ⟨true, out ++ err, st, [command]⟩
    | .timedOut => ⟨false, ofStr "Command timed out (30 seconds)", st, [command]⟩
    | .raised msg => ⟨false, msg, st, [command]⟩

/-- `LocalClient.interrupt_command`: the two oracles are the outcomes of
`os.killpg(..., SIGINT)` and of the fallback `terminate()`. -/
def LocalClient.interrupt_command (killpgOk termOk : Bool) (st : LocalSt) :
    Bool × LocalSt :=
  match st.running_process with
  | some _ =>
    if killpgOk then (true, st) else if termOk then (true, st) else (false, st)
  | none => (false, st)

/-- `LocalClient.kill_command`: the two oracles are the outcomes of
`os.killpg(..., SIGKILL)` and of the fallback `kill()`. -/
def LocalClient.kill_command (killpgOk killOk : Bool) (st : LocalSt) :
    Bool × LocalSt :=
  match st.running_process with
  | some _ =>
    if killpgOk then (true, st) else if killOk then (true, st) else (false, st)
  | none => (false, st)

/-! ## `SSHClient` (ssh_client.py)

The remote side is abstracted by an oracle for
`paramiko.SSHClient.exec_command`: given the exact command string
submitted, it either raises or returns the decoded stdout and stderr. -/

/-- Outcome of one `client.exec_command` call. -/
inductive ExecOutcome
  | returns (stdout stderr : PyStr)
  | raises (msg : PyStr)
deriving DecidableEq

/-- The mutable state of an `SSHClient`. -/
structure SSHSt where
  connected : Bool
  current_directory : Option PyStr
  running_channel : Option Unit
deriving DecidableEq

/-- Python truthiness of an optional string (`None` and `""` are falsy). -/
def pyTruthyOpt : Option PyStr → Bool
  | none => false
  | some s => !s.isEmpty

/-- `re.split` on the pattern of one `;` or `&&` with the separator
captured: alternating text and separator tokens, scanning left to
right. -/
def reSplitAux : PyStr → PyStr → List PyStr
  | [], acc => [acc.reverse]
  | ';' :: rest, acc => acc.reverse :: ofStr ";" :: reSplitAux rest []
  | '&' :: '&' :: rest, acc => acc.reverse :: ofStr "&&" :: reSplitAux rest []
  | c :: rest, acc => reSplitAux rest (c :: acc)

/-- One iteration of the collection loop in `split_commands`: a separator
token flushes the stripped buffer (when non-blank) and is kept; any other
part extends the buffer. -/
def splitStep (acc : List PyStr × PyStr) (part : PyStr) : List PyStr × PyStr :=
  if part = ofStr ";" ∨ part = ofStr "&&" then
    ((if pyStrip acc.2 ≠ [] then acc.1 ++ [pyStrip acc.2] else acc.1) ++ [part],
     [])
  else (acc.1, acc.2 ++ part)

/-- The inner helper `split_commands` of `SSHClient.execute_command`:
re-split on `;`/`&&`, then collect stripped non-blank segments with the
separators kept as their own tokens. -/
def split_commands (cmd : PyStr) : List PyStr :=
  let r := (reSplitAux cmd []).foldl splitStep ([], [])
  if pyStrip r.2 ≠ [] then r.1 ++ [pyStrip r.2] else r.1

/-- The probe command issued for a `cd` segment when a base directory is
known: `cd <quoted base> && cd <quoted target> && pwd`. -/
def probeCmd2 (lastDir target : PyStr) : PyStr :=
  ofStr "cd " ++ shlexQuote lastDir ++ ofStr " && cd " ++ shlexQuote target ++
    ofStr " && pwd"

/-- The probe command issued for a `cd` segment when no base directory is
known: `cd <quoted target> && pwd`. -/
def probeCmd1 (target : PyStr) : PyStr :=
  ofStr "cd " ++ shlexQuote target ++ ofStr " && pwd"

/-- `output.strip().splitlines()[-1]`; `none` models the `IndexError`
raised when the stripped output has no lines. -/
def strippedLastLine (out : PyStr) : Option PyStr :=
  (pySplitLines (pyStrip out)).getLast?

/-- The state of the directory-tracking loop in
`SSHClient.execute_command`: the last known directory, the
`only_cd` flag, and the log of commands submitted to the transport. -/
structure TrackSt where
  last_dir : Option PyStr
  only_cd : Bool
  log : List PyStr
deriving DecidableEq

/-- The shared body of the probe handling (both the with-base and the
no-base variant): issue `ec`, and on a clean non-empty stdout take its
last line as the confirmed directory; on empty stdout or non-empty stderr
fall back to `fallback` and break; a raised exception or an empty
stripped stdout is swallowed by the `except` clause. The returned flag
is the `break`. -/
def probeStep (exec : PyStr → ExecOutcome) (st : TrackSt) (ec : PyStr)
    (fallback : PyStr) : TrackSt × Bool :=
  let st := { st with log := st.log ++ [ec] }
  match exec ec with
  | .raises _ => (st, false)
  | .returns out err =>
    if out ≠ [] ∧ err = [] then
      match strippedLastLine out with
      | some nd => ({ st with last_dir := some nd }, false)
      | none => (st, false)
    else
      ({ st with last_dir := some fallback }, true)

/-- One iteration of the directory-tracking loop over the split command
segments. -/
def trackStep (exec : PyStr → ExecOutcome) (st : TrackSt) (part : PyStr) :
    TrackSt × Bool :=
  if part = ofStr ";" ∨ part = ofStr "&&" then (st, false)
  else if pyStartsWith part (ofStr "cd ") then
    match (shlexSplit part).get? 1 with
    | none => (st, false)
    | some target =>
      match st.last_dir with
      | some d =>
        if d ≠ [] then
          probeStep exec st (probeCmd2 d target) (pyNormpath (pyJoin d target))
        else
          probeStep exec st (probeCmd1 target) (pyNormpath target)
      | none => probeStep exec st (probeCmd1 target) (pyNormpath target)
  else ({ st with only_cd := false }, false)

/-- The directory-tracking loop (a `for` with `break`). -/
def trackLoop (exec : PyStr → ExecOutcome) : List PyStr → TrackSt → TrackSt
  | [], st => st
  | p :: rest, st =>
    let s := trackStep exec st p
    if s.2 then s.1 else trackLoop exec rest s.1

/-- Result of `SSHClient.execute_command`: the `(success, output)` pair
(`output = none` models Python `None`), the tracked directory after the
call, and the commands submitted to the transport, in order. -/
structure SSHRes where
  ok : Bool
  output : Option PyStr
  dir : Option PyStr
  log : List PyStr
deriving DecidableEq

/-- `SSHClient.execute_command` (non-streaming mode; no
`output_callback`). -/
def SSHClient.execute_command (exec : PyStr → ExecOutcome) (st : SSHSt)
    (command : PyStr) : SSHRes :=
  if ¬ st.connected then ⟨false, some (ofStr "Not connected"), st.current_directory, []⟩
  else
    let cmds := split_commands command
    let tr := trackLoop exec cmds ⟨st.current_directory, true, []⟩
    let newDir := if pyTruthyOpt tr.last_dir then tr.last_dir else st.current_directory
    if tr.only_cd ∧ cmds.length = 1 ∧ pyStartsWith (cmds.headD []) (ofStr "cd ") then
      ⟨true, tr.last_dir, newDir, tr.log⟩
    else
      let full := if pyTruthyOpt newDir then
          ofStr "cd " ++ shlexQuote (newDir.getD []) ++ ofStr " && " ++ command
        else command
      match exec full with
      | .raises msg => ⟨false, some msg, newDir, tr.log ++ [full]⟩
      | .returns out err =>
        ⟨true, some (if out ≠ [] then out else err), newDir, tr.log ++ [full]⟩

/-- `SSHClient.interrupt_command`: the oracle is the outcome of writing
the interrupt byte into the channel. -/
def SSHClient.interrupt_command (sendOk : Bool) (st : SSHSt) : Bool × SSHSt :=
  match st.running_channel with
  | some _ => if sendOk then (true, st) else (false, st)
  | none => (false, st)

/-- `SSHClient.kill_command`: the oracle is the outcome of closing the
channel. -/
def SSHClient.kill_command (closeOk : Bool) (st : SSHSt) : Bool × SSHSt :=
  match st.running_channel with
  | some _ =>
    if closeOk then (true, { st with running_channel := none }) else (false, st)
  | none => (false, st)

/-! ## The AI dispatch loop (AIDesktop/main.py)

`OllamaClient.generate` and the backend's `execute_command` are oracles;
`GLib.idle_add` marshalling is modelled as a direct call, and the chat
transcript as a list of `(who, text, category)` events. -/

/-- Python `str.upper()` (ASCII). -/
def pyUpper (s : PyStr) : PyStr := s.map Char.toUpper

/-- The `MAX_OUTPUT_CHARS` module constant. -/
def MAX_OUTPUT_CHARS : Nat := 150000

/-- The validation of the configured maximum in `process_ai_command`: a
value below zero falls back to the `MAX_OUTPUT_CHARS` default. -/
def effectiveMax (maxSetting : Int) : Int :=
  if maxSetting < 0 then (MAX_OUTPUT_CHARS : Int) else maxSetting

/-- The output-truncation step of `process_ai_command`: output longer
than the effective maximum is cut to that many characters plus a marker
stating the original character count. -/
def truncate_output (maxSetting : Int) (output : PyStr) : PyStr :=
  if (output.length : Int) > effectiveMax maxSetting then
    output.take (effectiveMax maxSetting).toNat ++
      ofStr "\n... (output truncated, " ++
      ofStr (toString output.length) ++ ofStr " chars total)"
  else output

/-- One conversation turn. -/
structure Turn where
  role : PyStr
  content : PyStr
deriving DecidableEq

/-- The rendering of one history turn inside the prompt context. -/
def formatTurn (t : Turn) : PyStr := t.role ++ ofStr ": " ++ t.content ++ ofStr "\n"

/-- The history context block of the prompt: empty for an empty history,
otherwise a header followed by the last five turns. -/
def build_context (history : List Turn) : PyStr :=
  if history = [] then ofStr ""
  else
    ofStr "\n\nPrevious conversation context:\n" ++
      (pyLastSlice 5 history).foldl (fun acc t => acc ++ formatTurn t) (ofStr "")

/-- The prompt assembled by `process_ai_command` (the f-string template
with its placeholders spliced in). -/
def build_prompt (aiName aiRole : PyStr) (history : List Turn) (request : PyStr) :
    PyStr :=
  ofStr "You are " ++ aiName ++ ofStr ", a " ++ aiRole ++
  ofStr ". YOU HAVE FULL SSH ACCESS TO THE SERVER and can run any command.\n" ++
  build_context history ++
  ofStr "\n\nA user has now requested: \"" ++ request ++ ofStr "\"

IMPORTANT INSTRUCTIONS:
- You MUST respond in EXACTLY this format, with each line starting with the exact keywords below
- Do NOT use JSON, do NOT use code blocks, do NOT deviate from this format
- Each response must have these 3 lines:

DECISION: [COMMAND if user wants you to run something, or CONVERSATION if just talking]
COMMAND: [If DECISION is COMMAND, write the single shell command. If DECISION is CONVERSATION, write NONE]
RESPONSE: [Your analysis or conversation response]

Example 1 - Running a command:
User: \"show me the current directory\"
DECISION: COMMAND
COMMAND: pwd
RESPONSE: I'll show you the current directory using the pwd command.

Example 2 - Conversation:
User: \"hello\"
DECISION: CONVERSATION
COMMAND: NONE
RESPONSE: Hello! I'm " ++ aiName ++ ofStr ", your " ++ aiRole ++
  ofStr ". How can I help you today?\n"

/-- A transcript event: `(who, text, category)` as passed to
`append_chat_message`. -/
abbrev ChatEvent := PyStr × PyStr × PyStr

/-- Result of one dispatch turn: the conversation history afterwards, the
transcript events emitted, the commands executed against the backend,
and whether the input channel is enabled afterwards. -/
structure DispatchRes where
  history : List Turn
  events : List ChatEvent
  executed : List PyStr
  inputEnabled : Bool
deriving DecidableEq

/-- `AITerminalWindow.process_ai_command`.  `gen` is
`OllamaClient.generate`; `dirBefore` is the backend's tracked directory
read before execution; `backend` runs a command and returns
`(success, output)` together with the tracked directory afterwards. -/
def process_ai_command (aiName aiRole : PyStr) (maxOutput : Int)
    (gen : PyStr → Bool × PyStr) (dirBefore : Option PyStr)
    (backend : PyStr → Bool × PyStr × Option PyStr)
    (history : List Turn) (request : PyStr) : DispatchRes :=
  let prompt := build_prompt aiName aiRole history request
  let g := gen prompt
  if ¬ g.1 then
    ⟨history, [(ofStr "ERROR", g.2, ofStr "system")], [], true⟩
  else
    let p := parse_ai_response g.2
    let decision := p.1
    let command := p.2.1
    let response := p.2.2
    let ev0 : List ChatEvent := [(pyUpper aiName, response, ofStr "ai")]
    if decision = ofStr "COMMAND" ∧ command ≠ [] ∧ command ≠ ofStr "NONE" then
      let evCmd : ChatEvent :=
        if pyTruthyOpt dirBefore then
          (ofStr "COMMAND", ofStr "[" ++ dirBefore.getD [] ++ ofStr "]$ " ++ command,
           ofStr "command")
        else (ofStr "COMMAND", ofStr "$ " ++ command, ofStr "command")
      let r := backend command
      if r.1 then
        let out2 := truncate_output maxOutput r.2.1
        let dirAfter := r.2.2
        let evOut : ChatEvent :=
          (ofStr "OUTPUT", if out2 = [] then ofStr "(no output)" else out2,
           ofStr "output")
        let evDir : List ChatEvent :=
          if pyTruthyOpt dirAfter ∧ dirAfter ≠ dirBefore then
            [(ofStr "SYSTEM", ofStr "Directory changed to: " ++ dirAfter.getD [],
              ofStr "system")]
          else []
        ⟨history ++ [⟨ofStr "assistant",
            ofStr "Executed: " ++ command ++ ofStr "\nOutput: " ++ out2⟩],
         ev0 ++ [evCmd, evOut] ++ evDir, [command], true⟩
      else
        ⟨history, ev0 ++ [evCmd, (ofStr "ERROR", r.2.1, ofStr "system")], [command],
         true⟩
    else
      ⟨history ++ [⟨ofStr "assistant", response⟩], ev0, [], true⟩

/-- `AITerminalWindow.on_send_message`: validation, the transcript and
history appends, and the disabling of the input channel before the
background dispatch starts.  Returns history, events and the
input-enabled flag. -/
def on_send_message (connected : Bool) (history : List Turn) (inputText : PyStr) :
    List Turn × List ChatEvent × Bool :=
  let message := pyStrip inputText
  if message = [] then (history, [], true)
  else if ¬ connected then
    (history,
     [(ofStr "ERROR",
       ofStr "Terminal not ready. Please wait or restart the application.",
       ofStr "system")], true)
  else
    (history ++ [⟨ofStr "user", message⟩], [(ofStr "USER", message, ofStr "user")],
     false)

/-! ## Tab completion (AIDesktop/main.py)

The asynchronous fetch (`get_completions` on a worker thread, delivered
through `GLib.idle_add`) is modelled as a synchronous oracle call. -/

/-- The completion-related state of the window: the input text and cursor
position, the cached candidates with cycle index, the text the cache was
produced for, and a count of the cycling-hint system messages. -/
structure CompSt where
  text : PyStr
  cursor : Nat
  completions : List PyStr
  completion_index : Nat
  last_completion_text : PyStr
  notices : Nat
deriving DecidableEq

/-- `AITerminalWindow.apply_completion`: replace the partial token before
the cursor by the chosen candidate and move the cursor after it. -/
def apply_completion (completion original partialWord : PyStr) (st : CompSt) :
    CompSt :=
  let before := original.take st.cursor
  let after := original.drop st.cursor
  if partialWord ≠ [] then
    let pre := before.take (before.length - partialWord.length)
    { st with text := pre ++ completion ++ after,
              cursor := pre.length + completion.length }
  else
    { st with text := before ++ completion ++ after,
              cursor := st.cursor + completion.length }

/-- `AITerminalWindow.apply_completions`: cache the fetched candidates,
reset the cycle index, remember the text they were fetched for, and apply
the first candidate (with a hint message when there are several). -/
def apply_completions (comps : List PyStr) (original partialWord : PyStr)
    (st : CompSt) : CompSt :=
  let st := { st with completions := comps, completion_index := 0,
                      last_completion_text := original }
  match comps with
  | [] => st
  | [c] => apply_completion c original partialWord st
  | c :: _ :: _ => { apply_completion c original partialWord st with
                     notices := st.notices + 1 }

/-- `AITerminalWindow.handle_tab_completion`: fetch fresh candidates when
the text differs from the cached query text or no candidates are cached,
otherwise advance the cycle index modulo the candidate count and reapply. -/
def handle_tab_completion (fetch : PyStr → List PyStr) (st : CompSt) : CompSt :=
  let currentText := st.text
  let beforeCursor := currentText.take st.cursor
  let words := wsSplit beforeCursor
  match words.getLast? with
  | none => st
  | some partialWord =>
    if currentText ≠ st.last_completion_text ∨ st.completions = [] then
      apply_completions (fetch partialWord) currentText partialWord st
    else
      let idx := (st.completion_index + 1) % st.completions.length
      apply_completion (st.completions.getD idx []) currentText partialWord
        { st with completion_index := idx }

/-! ## Support lemmas -/

theorem pyStartsWith_append (x y : PyStr) : pyStartsWith (x ++ y) x = true := by
  induction x with
  | nil => cases y <;> simp [pyStartsWith]
  | cons c s ih => simp [pyStartsWith, ih]

theorem pyStartsWith_iff (s p : PyStr) : pyStartsWith s p = true ↔ p <+: s := by
  induction p generalizing s with
  | nil => simp [pyStartsWith]
  | cons a as ih =>
    cases s with
    | nil => simp [pyStartsWith]
    | cons c cs =>
      simp only [pyStartsWith, List.cons_prefix_cons, Bool.and_eq_true,
        decide_eq_true_eq, ih]
      exact and_congr_left (fun _ => eq_comm)

theorem dLabel_eq : dLabel = ['D', 'E', 'C', 'I', 'S', 'I', 'O', 'N', ':'] := rfl

theorem cLabel_eq : cLabel = ['C', 'O', 'M', 'M', 'A', 'N', 'D', ':'] := rfl

theorem rLabel_eq : rLabel = ['R', 'E', 'S', 'P', 'O', 'N', 'S', 'E', ':'] := rfl

theorem cLine_not_d (p : PyStr) : pyStartsWith (cLabel ++ p) dLabel = false := by
  rw [cLabel_eq, dLabel_eq]
  simp [pyStartsWith]

theorem rLine_not_d (p : PyStr) : pyStartsWith (rLabel ++ p) dLabel = false := by
  rw [rLabel_eq, dLabel_eq]
  simp [pyStartsWith]

theorem rLine_not_c (p : PyStr) : pyStartsWith (rLabel ++ p) cLabel = false := by
  rw [rLabel_eq, cLabel_eq]
  simp [pyStartsWith]

theorem dropWhile_of_head? (p : α → Bool) (l : List α)
    (h : ∀ c, l.head? = some c → p c = false) : l.dropWhile p = l := by
  cases l with
  | nil => rfl
  | cons a t => rw [List.dropWhile_cons, h a rfl]; simp

theorem pyStrip_of_ends (s : PyStr)
    (h1 : ∀ c, s.head? = some c → pyIsSpace c = false)
    (h2 : ∀ c, s.getLast? = some c → pyIsSpace c = false) : pyStrip s = s := by
  unfold pyStrip
  rw [dropWhile_of_head? _ _ h1,
    dropWhile_of_head? _ _ (fun c hc => h2 c (by rwa [List.head?_reverse] at hc))]
  exact List.reverse_reverse s

theorem dropWhile_replicate_nl (k : Nat) (s : PyStr) :
    List.dropWhile pyIsSpace (List.replicate k '\n' ++ s) =
      List.dropWhile pyIsSpace s := by
  induction k with
  | zero => simp
  | succ n ih =>
    rw [List.replicate_succ, List.cons_append, List.dropWhile_cons]
    simp only [ih]
    rfl

theorem pyStrip_replicate_nl (k : Nat) (s : PyStr) :
    pyStrip (List.replicate k '\n' ++ s) = pyStrip s := by
  unfold pyStrip
  rw [dropWhile_replicate_nl]

theorem parse_drop_leading_nl (k : Nat) (s : PyStr) :
    parse_ai_response (List.replicate k '\n' ++ s) = parse_ai_response s := by
  unfold parse_ai_response pySplitNl
  rw [pyStrip_replicate_nl]

theorem pySplitChar_no_sep (sep : Char) (a : PyStr) (h : sep ∉ a) :
    pySplitChar sep a = [a] := by
  induction a with
  | nil => rfl
  | cons c t ih =>
    have hc : ¬ c = sep := fun e => h (e ▸ List.mem_cons_self c t)
    rw [pySplitChar, if_neg hc, ih (fun m => h (List.mem_cons_of_mem _ m))]

theorem pySplitChar_append (sep : Char) (a rest : PyStr) (h : sep ∉ a) :
    pySplitChar sep (a ++ sep :: rest) = a :: pySplitChar sep rest := by
  induction a with
  | nil => simp [pySplitChar]
  | cons c t ih =>
    have hc : ¬ c = sep := fun e => h (e ▸ List.mem_cons_self c t)
    rw [List.cons_append, pySplitChar, if_neg hc,
      ih (fun m => h (List.mem_cons_of_mem _ m))]

theorem pySplitNl_mk3 (x y z : PyStr) (hx : '\n' ∉ x) (hy : '\n' ∉ y)
    (hz : '\n' ∉ z) : pySplitNl (mk3 x y z) = [x, y, z] := by
  unfold mk3 pySplitNl
  rw [pySplitChar_append _ _ _ hx, pySplitChar_append _ _ _ hy,
    pySplitChar_no_sep _ _ hz]

theorem mk3_head? (x y z : PyStr) (hx : x ≠ []) :
    (mk3 x y z).head? = x.head? := by
  cases x with
  | nil => exact absurd rfl hx
  | cons c t => rfl

theorem mk3_getLast? (x y z : PyStr) (hz : z ≠ []) :
    (mk3 x y z).getLast? = z.getLast? := by
  unfold mk3
  rw [List.getLast?_append_of_ne_nil _ (by simp)]
  have h1 : ('\n' :: (y ++ '\n' :: z)) = ['\n'] ++ (y ++ '\n' :: z) := rfl
  rw [h1, List.getLast?_append_of_ne_nil _ (by simp),
    List.getLast?_append_of_ne_nil _ (by simp)]
  have h2 : ('\n' :: z) = ['\n'] ++ z := rfl
  rw [h2, List.getLast?_append_of_ne_nil _ hz]

theorem parseLine_dLine (st : ParseState) (p : PyStr) :
    parseLine st (dLabel ++ p) =
      { st with decision := pyStrip (pyReplace dLabel (ofStr "") (dLabel ++ p)),
                started := false } := by
  unfold parseLine
  rw [if_pos (by rw [pyStartsWith_append])]

theorem parseLine_cLine (st : ParseState) (p : PyStr) :
    parseLine st (cLabel ++ p) =
      { st with command := pyStrip (pyReplace cLabel (ofStr "") (cLabel ++ p)),
                started := false } := by
  unfold parseLine
  rw [if_neg (by rw [cLine_not_d]; exact Bool.false_ne_true),
    if_pos (by rw [pyStartsWith_append])]

theorem parseLine_rLine (st : ParseState) (p : PyStr) :
    parseLine st (rLabel ++ p) =
      { st with message := pyStrip (pyReplace rLabel (ofStr "") (rLabel ++ p)),
                started := true } := by
  unfold parseLine
  rw [if_neg (by rw [rLine_not_d]; exact Bool.false_ne_true),
    if_neg (by rw [rLine_not_c]; exact Bool.false_ne_true),
    if_pos (by rw [pyStartsWith_append])]

theorem parseLine_decision_const (st : ParseState) (l : PyStr)
    (h : pyStartsWith l dLabel = false) : (parseLine st l).decision = st.decision := by
  unfold parseLine
  rw [if_neg (by rw [h]; exact Bool.false_ne_true)]
  split
  · rfl
  split
  · rfl
  split
  · rfl
  · rfl

theorem parseLine_command_const (st : ParseState) (l : PyStr)
    (h : pyStartsWith l cLabel = false) : (parseLine st l).command = st.command := by
  unfold parseLine
  split
  · rfl
  rw [if_neg (by rw [h]; exact Bool.false_ne_true)]
  split
  · rfl
  split
  · rfl
  · rfl

theorem foldl_parseLine_decision (ls : List PyStr) :
    ∀ st : ParseState, (∀ l ∈ ls, pyStartsWith l dLabel = false) →
      (List.foldl parseLine st ls).decision = st.decision := by
  induction ls with
  | nil => intro st _; rfl
  | cons l t ih =>
    intro st h
    rw [List.foldl_cons, ih _ (fun x hx => h x (List.mem_cons_of_mem _ hx)),
      parseLine_decision_const _ _ (h l (List.mem_cons_self l t))]

theorem foldl_parseLine_command (ls : List PyStr) :
    ∀ st : ParseState, (∀ l ∈ ls, pyStartsWith l cLabel = false) →
      (List.foldl parseLine st ls).command = st.command := by
  induction ls with
  | nil => intro st _; rfl
  | cons l t ih =>
    intro st h
    rw [List.foldl_cons, ih _ (fun x hx => h x (List.mem_cons_of_mem _ hx)),
      parseLine_command_const _ _ (h l (List.mem_cons_self l t))]

theorem parseLine_nolabel (st : ParseState) (l : PyStr)
    (hd : pyStartsWith l dLabel = false) (hc : pyStartsWith l cLabel = false)
    (hr : pyStartsWith l rLabel = false) (hs : st.started = false) :
    parseLine st l = st := by
  unfold parseLine
  rw [if_neg (by rw [hd]; exact Bool.false_ne_true),
    if_neg (by rw [hc]; exact Bool.false_ne_true),
    if_neg (by rw [hr]; exact Bool.false_ne_true), hs]
  rfl

theorem foldl_parseLine_nolabel (ls : List PyStr) :
    ∀ st : ParseState,
      (∀ l ∈ ls, pyStartsWith l dLabel = false ∧ pyStartsWith l cLabel = false ∧
        pyStartsWith l rLabel = false) →
      st.started = false → List.foldl parseLine st ls = st := by
  induction ls with
  | nil => intro st _ _; rfl
  | cons l t ih =>
    intro st h hs
    obtain ⟨h1, h2, h3⟩ := h l (List.mem_cons_self l t)
    rw [List.foldl_cons, parseLine_nolabel st l h1 h2 h3 hs]
    exact ih st (fun x hx => h x (List.mem_cons_of_mem _ hx)) hs

theorem pySplitChar_parts (sep : Char) (s : PyStr) :
    (∀ part ∈ pySplitChar sep s, part <:+: s) ∧
      (∀ h t, pySplitChar sep s = h :: t → h <+: s) := by
  induction s with
  | nil =>
    constructor
    · intro part hp
      simp only [pySplitChar, List.mem_singleton] at hp
      simp [hp]
    · intro h t he
      simp only [pySplitChar, List.cons.injEq] at he
      simp [he.1.symm]
  | cons c rest ih =>
    by_cases hc : c = sep
    · subst hc
      constructor
      · intro part hp
        rw [pySplitChar, if_pos rfl] at hp
        rcases List.mem_cons.1 hp with h | h
        · simp [h]
        · exact (ih.1 part h).trans (List.infix_cons (List.infix_refl _))
      · intro h t he
        rw [pySplitChar, if_pos rfl] at he
        injection he with he1 _
        simp [← he1]
    · constructor
      · intro part hp
        rw [pySplitChar, if_neg hc] at hp
        rcases hsplit : pySplitChar sep rest with _ | ⟨h0, t0⟩
        · rw [hsplit] at hp
          simp only [List.mem_singleton] at hp
          subst hp
          exact List.IsPrefix.isInfix ⟨rest, rfl⟩
        · rw [hsplit] at hp
          rcases List.mem_cons.1 hp with hm | hm
          · subst hm
            have hpre : h0 <+: rest := ih.2 h0 t0 hsplit
            exact List.IsPrefix.isInfix
              (List.cons_prefix_cons.2 ⟨rfl, hpre⟩)
          · have hmem : part ∈ pySplitChar sep rest := by
              rw [hsplit]; exact List.mem_cons_of_mem _ hm
            exact (ih.1 part hmem).trans (List.infix_cons (List.infix_refl _))
      · intro h t he
        rw [pySplitChar, if_neg hc] at he
        rcases hsplit : pySplitChar sep rest with _ | ⟨h0, t0⟩
        · rw [hsplit] at he
          simp only [List.cons.injEq] at he
          rw [← he.1]
          exact List.prefix_append [c] rest
        · rw [hsplit] at he
          simp only [List.cons.injEq] at he
          rw [← he.1]
          exact List.cons_prefix_cons.2 ⟨rfl, ih.2 h0 t0 hsplit⟩

theorem getLast?_label_append (lbl p : PyStr)
    (hl : ∀ ch, lbl.getLast? = some ch → pyIsSpace ch = false)
    (hp : p.getLast?.all (fun c => !pyIsSpace c) = true) :
    ∀ ch, (lbl ++ p).getLast? = some ch → pyIsSpace ch = false := by
  intro ch hch
  cases p with
  | nil => rw [List.append_nil] at hch; exact hl ch hch
  | cons a t =>
    rw [List.getLast?_append_of_ne_nil _ (by simp)] at hch
    rw [hch] at hp
    simpa using hp

theorem pyStrip_isInfix (s : PyStr) : pyStrip s <:+: s := by
  unfold pyStrip
  have hu : List.dropWhile pyIsSpace s <:+ s := List.dropWhile_suffix _
  have hv : (List.dropWhile pyIsSpace (List.dropWhile pyIsSpace s).reverse).reverse <+:
      List.dropWhile pyIsSpace s := by
    rw [← List.reverse_suffix, List.reverse_reverse]
    exact List.dropWhile_suffix _
  exact hv.isInfix.trans hu.isInfix

theorem mem_of_getLast?_eq (l : List α) (c : α) (h : l.getLast? = some c) :
    c ∈ l := by
  obtain ⟨hne, he⟩ := List.mem_getLast?_eq_getLast (Option.mem_def.2 h)
  rw [he]
  exact List.getLast_mem hne

theorem solid_head (s : PyStr) (h : solid s) :
    ∀ ch, s.head? = some ch → pyIsSpace ch = false := by
  intro ch hch
  have h2 := h.2.1
  rw [hch] at h2
  simpa using h2

theorem solid_last (s : PyStr) (h : solid s) :
    ∀ ch, s.getLast? = some ch → pyIsSpace ch = false := by
  intro ch hch
  have h2 := h.2.2
  rw [hch] at h2
  simpa using h2

theorem pyStrip_solid (s : PyStr) (h : solid s) : pyStrip s = s :=
  pyStrip_of_ends s (solid_head s h) (solid_last s h)

theorem pyStrip_cons_space (ch : Char) (s : PyStr) (hch : pyIsSpace ch = true) :
    pyStrip (ch :: s) = pyStrip s := by
  unfold pyStrip
  rw [List.dropWhile_cons, hch]
  rfl

theorem pyStrip_snoc_space (s : PyStr) (ch : Char) (h : solid s)
    (hch : pyIsSpace ch = true) : pyStrip (s ++ [ch]) = s := by
  have hhead : ∀ c, (s ++ [ch]).head? = some c → pyIsSpace c = false := by
    intro c hc
    rcases s with _ | ⟨a, t⟩
    · exact absurd rfl h.1
    · simp only [List.cons_append, List.head?_cons, Option.some.injEq] at hc
      subst hc
      exact solid_head _ h a rfl
  unfold pyStrip
  rw [dropWhile_of_head? pyIsSpace (s ++ [ch]) hhead, List.reverse_append]
  simp only [List.reverse_cons, List.reverse_nil, List.nil_append,
    List.singleton_append]
  rw [List.dropWhile_cons, hch]
  simp only [if_true, reduceIte]
  rw [dropWhile_of_head? pyIsSpace s.reverse (by
    intro c hc
    rw [List.head?_reverse] at hc
    exact solid_last _ h c hc)]
  exact List.reverse_reverse s

theorem token_facts (t : PyStr) (h : token t) :
    t ≠ [] ∧ (∀ ch ∈ t, pyIsSpace ch = false) ∧
      (∀ ch ∈ t, ch ≠ ';' ∧ ch ≠ '&') := by
  refine ⟨h.1, ?_, ?_⟩
  · intro ch hch
    have := List.all_eq_true.1 h.2 ch hch
    simp only [Bool.and_eq_true, Bool.not_eq_true', decide_eq_false_iff_not] at this
    exact this.1.1.1.1.1
  · intro ch hch
    have := List.all_eq_true.1 h.2 ch hch
    simp only [Bool.and_eq_true, Bool.not_eq_true', decide_eq_false_iff_not] at this
    exact ⟨this.1.1.1.1.2, this.1.1.1.2⟩

theorem token_solid (t : PyStr) (h : token t) : solid t := by
  obtain ⟨hne, hns, _⟩ := token_facts t h
  refine ⟨hne, ?_, ?_⟩
  · rcases t with _ | ⟨a, s⟩
    · exact absurd rfl hne
    · simpa using hns a (List.mem_cons_self a s)
  · rcases hl : t.getLast? with _ | c
    · simp
    · simpa using hns c (mem_of_getLast?_eq t c hl)

theorem solid_cd_append (t : PyStr) (h : token t) : solid (ofStr "cd " ++ t) := by
  obtain ⟨hne, hns, _⟩ := token_facts t h
  have hcons : (ofStr "cd " ++ t : PyStr) = 'c' :: 'd' :: ' ' :: t := rfl
  refine ⟨by rw [hcons]; simp, by rw [hcons]; rfl, ?_⟩
  rw [List.getLast?_append_of_ne_nil _ hne]
  rcases hl : t.getLast? with _ | c
  · simp
  · simpa using hns c (mem_of_getLast?_eq t c hl)

theorem reSplitAux_cons_text (c : Char) (rest acc : PyStr) (h1 : c ≠ ';')
    (h2 : c ≠ '&') : reSplitAux (c :: rest) acc = reSplitAux rest (c :: acc) := by
  rw [reSplitAux.eq_def]
  split
  next heq => exact absurd heq (by simp)
  next heq =>
    injection heq with e1 _
    exact absurd e1 h1
  next heq =>
    injection heq with e1 _
    exact absurd e1 h2
  next u v w a r g1 g2 heq =>
    injection heq with e1 e2
    rw [← e1, ← e2]

theorem pySplitLines_cons_text (ch : Char) (tl : PyStr) (h1 : ch ≠ '\n')
    (h2 : ch ≠ '\x0d') :
    pySplitLines (ch :: tl) =
      match pySplitLines tl with
      | [] => [[ch]]
      | h :: t => (ch :: h) :: t := by
  rw [pySplitLines.eq_def]
  split
  next heq => exact absurd heq (by simp)
  next heq =>
    injection heq with e1 _
    exact absurd e1 h2
  next heq =>
    injection heq with e1 _
    exact absurd e1 h1
  next heq =>
    injection heq with e1 _
    exact absurd e1 h2
  next a r g1 g2 g3 heq =>
    injection heq with e1 e2
    rw [← e1, ← e2]

theorem reSplitAux_accum (s1 : PyStr) (h : ∀ ch ∈ s1, ch ≠ ';' ∧ ch ≠ '&') :
    ∀ acc rest, reSplitAux (s1 ++ rest) acc = reSplitAux rest (s1.reverse ++ acc) := by
  induction s1 with
  | nil => intro acc rest; rfl
  | cons ch tl ih =>
    intro acc rest
    obtain ⟨h1, h2⟩ := h ch (List.mem_cons_self ch tl)
    rw [List.cons_append, reSplitAux_cons_text ch _ _ h1 h2,
      ih (fun x hx => h x (List.mem_cons_of_mem _ hx)) (ch :: acc) rest]
    simp

theorem reSplit_no_sep (s : PyStr) (h : ∀ ch ∈ s, ch ≠ ';' ∧ ch ≠ '&') :
    ∀ acc, reSplitAux s acc = [acc.reverse ++ s] := by
  intro acc
  have heq := reSplitAux_accum s h acc []
  rw [List.append_nil] at heq
  rw [heq, show reSplitAux [] (s.reverse ++ acc) = [(s.reverse ++ acc).reverse] from rfl]
  simp

theorem splitStep_sep (acc : List PyStr × PyStr) (part : PyStr)
    (hp : part = ofStr ";" ∨ part = ofStr "&&") :
    splitStep acc part =
      ((if pyStrip acc.2 ≠ [] then acc.1 ++ [pyStrip acc.2] else acc.1) ++ [part],
       []) := by
  rw [splitStep, if_pos hp]

theorem splitStep_text (acc : List PyStr × PyStr) (part : PyStr)
    (h1 : part ≠ ofStr ";") (h2 : part ≠ ofStr "&&") :
    splitStep acc part = (acc.1, acc.2 ++ part) := by
  rw [splitStep, if_neg (not_or.2 ⟨h1, h2⟩)]

theorem ne_sep_of_head (a : Char) (t : PyStr) (h1 : a ≠ ';') (h2 : a ≠ '&') :
    (a :: t : PyStr) ≠ ofStr ";" ∧ (a :: t : PyStr) ≠ ofStr "&&" := by
  constructor
  · intro e
    rw [show (ofStr ";" : PyStr) = [';'] from rfl] at e
    injection e with e1 _
    exact h1 e1
  · intro e
    rw [show (ofStr "&&" : PyStr) = ['&', '&'] from rfl] at e
    injection e with e1 _
    exact h2 e1

theorem solid_ne_sep (s : PyStr) (hs : solid s)
    (h : ∀ ch ∈ s, ch ≠ ';' ∧ ch ≠ '&') :
    s ≠ ofStr ";" ∧ s ≠ ofStr "&&" := by
  rcases s with _ | ⟨a, t⟩
  · exact absurd rfl hs.1
  · exact ne_sep_of_head a t (h a (List.mem_cons_self a t)).1
      (h a (List.mem_cons_self a t)).2

theorem split_commands_single (s : PyStr) (hs : solid s)
    (h : ∀ ch ∈ s, ch ≠ ';' ∧ ch ≠ '&') : split_commands s = [s] := by
  obtain ⟨hne1, hne2⟩ := solid_ne_sep s hs h
  unfold split_commands
  rw [reSplit_no_sep s h []]
  simp only [List.foldl_cons, List.foldl_nil, List.reverse_nil, List.nil_append]
  rw [splitStep_text _ _ hne1 hne2]
  simp only [List.nil_append]
  rw [pyStrip_solid s hs, if_pos hs.1]

theorem split_commands_amp (s1 s2 : PyStr) (hs1 : solid s1) (hs2 : solid s2)
    (h1 : ∀ ch ∈ s1, ch ≠ ';' ∧ ch ≠ '&') (h2 : ∀ ch ∈ s2, ch ≠ ';' ∧ ch ≠ '&') :
    split_commands (s1 ++ ofStr " && " ++ s2) = [s1, ofStr "&&", s2] := by
  have hparts : reSplitAux (s1 ++ ofStr " && " ++ s2) [] =
      [s1 ++ [' '], ofStr "&&", ' ' :: s2] := by
    rw [List.append_assoc, reSplitAux_accum s1 h1 [] _, List.append_nil,
      show (ofStr " && " ++ s2 : PyStr) = ' ' :: '&' :: '&' :: ' ' :: s2 from rfl,
      reSplitAux_cons_text ' ' _ _ (by decide) (by decide)]
    rw [show reSplitAux ('&' :: '&' :: ' ' :: s2) (' ' :: s1.reverse) =
        (' ' :: s1.reverse).reverse :: ofStr "&&" :: reSplitAux (' ' :: s2) []
      from rfl]
    rw [reSplitAux_cons_text ' ' _ _ (by decide) (by decide),
      reSplit_no_sep s2 h2 [' ']]
    simp
  unfold split_commands
  rw [hparts]
  simp only [List.foldl_cons, List.foldl_nil]
  have hp1 : (s1 ++ [' '] : PyStr) ≠ ofStr ";" ∧ (s1 ++ [' '] : PyStr) ≠ ofStr "&&" := by
    rcases s1 with _ | ⟨a, t⟩
    · exact absurd rfl hs1.1
    · exact ne_sep_of_head a _ (h1 a (List.mem_cons_self a t)).1
        (h1 a (List.mem_cons_self a t)).2
  have hp2 : (' ' :: s2 : PyStr) ≠ ofStr ";" ∧ (' ' :: s2 : PyStr) ≠ ofStr "&&" :=
    ne_sep_of_head ' ' s2 (by decide) (by decide)
  rw [splitStep_text _ _ hp1.1 hp1.2]
  simp only [List.nil_append]
  rw [splitStep_sep _ _ (Or.inr rfl)]
  rw [pyStrip_snoc_space s1 ' ' hs1 (by decide)]
  rw [if_pos hs1.1]
  rw [splitStep_text _ _ hp2.1 hp2.2]
  simp only [List.nil_append]
  rw [pyStrip_cons_space ' ' s2 (by decide), pyStrip_solid s2 hs2, if_pos hs2.1]
  simp

theorem wsSplitAux_nonspace (t : PyStr) (h : ∀ ch ∈ t, pyIsSpace ch = false) :
    ∀ acc, acc ≠ [] ∨ t ≠ [] → wsSplitAux t acc = [acc.reverse ++ t] := by
  induction t with
  | nil =>
    intro acc hor
    rcases hor with ha | ht
    · unfold wsSplitAux
      rw [if_neg ha]
      simp
    · exact absurd rfl ht
  | cons ch tl ih =>
    intro acc _
    unfold wsSplitAux
    rw [h ch (List.mem_cons_self ch tl)]
    simp only [Bool.false_eq_true, if_false]
    rw [ih (fun x hx => h x (List.mem_cons_of_mem _ hx)) (ch :: acc)
      (Or.inl (by simp))]
    simp

theorem shlexSplit_cd (t : PyStr) (ht : t ≠ [])
    (h : ∀ ch ∈ t, pyIsSpace ch = false) :
    shlexSplit (ofStr "cd " ++ t) = [ofStr "cd", t] := by
  unfold shlexSplit wsSplit
  rw [show (ofStr "cd " ++ t : PyStr) = 'c' :: 'd' :: ' ' :: t from rfl]
  rw [show wsSplitAux ('c' :: 'd' :: ' ' :: t) [] =
      ofStr "cd" :: wsSplitAux t [] from rfl]
  rw [wsSplitAux_nonspace t h [] (Or.inr ht)]
  rfl

theorem pySplitLines_single (res : PyStr) (hne : res ≠ []) (hnl : '\n' ∉ res)
    (hcr : '\x0d' ∉ res) : pySplitLines res = [res] := by
  induction res with
  | nil => exact absurd rfl hne
  | cons ch tl ih =>
    have hch1 : ch ≠ '\n' := fun e => hnl (e ▸ List.mem_cons_self ch tl)
    have hch2 : ch ≠ '\x0d' := fun e => hcr (e ▸ List.mem_cons_self ch tl)
    rw [pySplitLines_cons_text ch tl hch1 hch2]
    rcases tl with _ | ⟨c2, tl2⟩
    · rfl
    · rw [ih (by simp) (fun m => hnl (List.mem_cons_of_mem _ m))
        (fun m => hcr (List.mem_cons_of_mem _ m))]

theorem strippedLastLine_probe (res : PyStr) (hs : solid res) (hnl : '\n' ∉ res)
    (hcr : '\x0d' ∉ res) : strippedLastLine (res ++ ofStr "\n") = some res := by
  unfold strippedLastLine
  rw [show (ofStr "\n" : PyStr) = ['\n'] from rfl,
    pyStrip_snoc_space res '\n' hs (by decide),
    pySplitLines_single res hs.1 hnl hcr]
  rfl

theorem orDot_ne_nil (r : PyStr) : orDot r ≠ [] := by
  unfold orDot
  split
  · intro e
    injection e
  · assumption

theorem pyNormpath_ne_nil (p : PyStr) : pyNormpath p ≠ [] := by
  unfold pyNormpath
  split
  · intro e
    injection e
  · exact orDot_ne_nil _

/-! ## Claim C2 -/

/-- C2: `parse_ai_response` scans the response line by line; the last
occurrence of each label determines the corresponding field when a label
is duplicated; the parsed triple does not depend on the order of the
three labelled lines nor on extra leading blank lines; and a response
containing none of the three labels parses to exactly
`(CONVERSATION, NONE, "")`. -/
theorem C2_parse_ai_response :
    ((∀ (l1 l2 : List PyStr) (p : PyStr),
        (∀ l ∈ l2, pyStartsWith l dLabel = false) →
        (parseLines (l1 ++ (dLabel ++ p) :: l2)).decision =
          pyStrip (pyReplace dLabel (ofStr "") (dLabel ++ p))) ∧
     (∀ (l1 l2 : List PyStr) (p : PyStr),
        (∀ l ∈ l2, pyStartsWith l cLabel = false) →
        (parseLines (l1 ++ (cLabel ++ p) :: l2)).command =
          pyStrip (pyReplace cLabel (ofStr "") (cLabel ++ p))) ∧
     (∀ (ls : List PyStr) (p : PyStr),
        (parseLines (ls ++ [rLabel ++ p])).message =
          pyStrip (pyReplace rLabel (ofStr "") (rLabel ++ p)))) ∧
    (∀ (k : Nat) (d c m : PyStr), goodPayload d → goodPayload c → goodPayload m →
      ∀ body ∈ [mk3 (dLabel ++ d) (cLabel ++ c) (rLabel ++ m),
                mk3 (dLabel ++ d) (rLabel ++ m) (cLabel ++ c),
                mk3 (cLabel ++ c) (dLabel ++ d) (rLabel ++ m),
                mk3 (cLabel ++ c) (rLabel ++ m) (dLabel ++ d),
                mk3 (rLabel ++ m) (dLabel ++ d) (cLabel ++ c),
                mk3 (rLabel ++ m) (cLabel ++ c) (dLabel ++ d)],
        parse_ai_response (List.replicate k '\n' ++ body) =
          (pyStrip (pyReplace dLabel (ofStr "") (dLabel ++ d)),
           pyStrip (pyReplace cLabel (ofStr "") (cLabel ++ c)),
           pyStrip (pyReplace rLabel (ofStr "") (rLabel ++ m)))) ∧
    (∀ response : PyStr, ¬ dLabel <:+: response → ¬ cLabel <:+: response →
      ¬ rLabel <:+: response →
      parse_ai_response response = (ofStr "CONVERSATION", ofStr "NONE", ofStr "")) := by
  refine ⟨⟨?_, ?_, ?_⟩, ?_, ?_⟩
  · intro l1 l2 p h
    unfold parseLines
    rw [List.foldl_append, List.foldl_cons, foldl_parseLine_decision _ _ h,
      parseLine_dLine]
  · intro l1 l2 p h
    unfold parseLines
    rw [List.foldl_append, List.foldl_cons, foldl_parseLine_command _ _ h,
      parseLine_cLine]
  · intro ls p
    unfold parseLines
    rw [List.foldl_append, List.foldl_cons, List.foldl_nil, parseLine_rLine]
  · intro k d c m hd hc hm body hbody
    have key : ∀ x y z : PyStr, '\n' ∉ x → '\n' ∉ y → '\n' ∉ z → x ≠ [] → z ≠ [] →
        (∀ ch, x.head? = some ch → pyIsSpace ch = false) →
        (∀ ch, z.getLast? = some ch → pyIsSpace ch = false) →
        parse_ai_response (mk3 x y z) =
          ((List.foldl parseLine parseInit [x, y, z]).decision,
           (List.foldl parseLine parseInit [x, y, z]).command,
           (List.foldl parseLine parseInit [x, y, z]).message) := by
      intro x y z hx hy hz hxne hzne hxh hzl
      unfold parse_ai_response
      rw [pyStrip_of_ends (mk3 x y z) (by rw [mk3_head? _ _ _ hxne]; exact hxh)
        (by rw [mk3_getLast? _ _ _ hzne]; exact hzl)]
      rw [pySplitNl_mk3 _ _ _ hx hy hz]
      rfl
    have hnl : ∀ (lbl p : PyStr), '\n' ∉ lbl → '\n' ∉ p → '\n' ∉ lbl ++ p := by
      intro lbl p h1 h2 hmem
      rcases List.mem_append.1 hmem with h | h
      · exact h1 h
      · exact h2 h
    have hdl_nl : '\n' ∉ dLabel ++ d := hnl _ _ (by decide) hd.1
    have hcl_nl : '\n' ∉ cLabel ++ c := hnl _ _ (by decide) hc.1
    have hrl_nl : '\n' ∉ rLabel ++ m := hnl _ _ (by decide) hm.1
    have hdl_ne : dLabel ++ d ≠ [] := by rw [dLabel_eq]; simp
    have hcl_ne : cLabel ++ c ≠ [] := by rw [cLabel_eq]; simp
    have hrl_ne : rLabel ++ m ≠ [] := by rw [rLabel_eq]; simp
    have hdl_head : ∀ ch, (dLabel ++ d).head? = some ch → pyIsSpace ch = false := by
      rw [dLabel_eq]
      intro ch hch
      simp only [List.cons_append, List.head?_cons, Option.some.injEq] at hch
      rw [← hch]
      decide
    have hcl_head : ∀ ch, (cLabel ++ c).head? = some ch → pyIsSpace ch = false := by
      rw [cLabel_eq]
      intro ch hch
      simp only [List.cons_append, List.head?_cons, Option.some.injEq] at hch
      rw [← hch]
      decide
    have hrl_head : ∀ ch, (rLabel ++ m).head? = some ch → pyIsSpace ch = false := by
      rw [rLabel_eq]
      intro ch hch
      simp only [List.cons_append, List.head?_cons, Option.some.injEq] at hch
      rw [← hch]
      decide
    have hdl_last : ∀ ch, (dLabel ++ d).getLast? = some ch → pyIsSpace ch = false :=
      getLast?_label_append _ _ (by decide) hd.2
    have hcl_last : ∀ ch, (cLabel ++ c).getLast? = some ch → pyIsSpace ch = false :=
      getLast?_label_append _ _ (by decide) hc.2
    have hrl_last : ∀ ch, (rLabel ++ m).getLast? = some ch → pyIsSpace ch = false :=
      getLast?_label_append _ _ (by decide) hm.2
    simp only [List.mem_cons, List.not_mem_nil, or_false] at hbody
    rcases hbody with rfl | rfl | rfl | rfl | rfl | rfl
    · rw [parse_drop_leading_nl,
        key _ _ _ hdl_nl hcl_nl hrl_nl hdl_ne hrl_ne hdl_head hrl_last]
      simp [List.foldl_cons, List.foldl_nil, parseLine_dLine, parseLine_cLine,
        parseLine_rLine]
    · rw [parse_drop_leading_nl,
        key _ _ _ hdl_nl hrl_nl hcl_nl hdl_ne hcl_ne hdl_head hcl_last]
      simp [List.foldl_cons, List.foldl_nil, parseLine_dLine, parseLine_cLine,
        parseLine_rLine]
    · rw [parse_drop_leading_nl,
        key _ _ _ hcl_nl hdl_nl hrl_nl hcl_ne hrl_ne hcl_head hrl_last]
      simp [List.foldl_cons, List.foldl_nil, parseLine_dLine, parseLine_cLine,
        parseLine_rLine]
    · rw [parse_drop_leading_nl,
        key _ _ _ hcl_nl hrl_nl hdl_nl hcl_ne hdl_ne hcl_head hdl_last]
      simp [List.foldl_cons, List.foldl_nil, parseLine_dLine, parseLine_cLine,
        parseLine_rLine]
    · rw [parse_drop_leading_nl,
        key _ _ _ hrl_nl hdl_nl hcl_nl hrl_ne hcl_ne hrl_head hcl_last]
      simp [List.foldl_cons, List.foldl_nil, parseLine_dLine, parseLine_cLine,
        parseLine_rLine]
    · rw [parse_drop_leading_nl,
        key _ _ _ hrl_nl hcl_nl hdl_nl hrl_ne hdl_ne hrl_head hdl_last]
      simp [List.foldl_cons, List.foldl_nil, parseLine_dLine, parseLine_cLine,
        parseLine_rLine]
  · intro response h1 h2 h3
    have hinf : ∀ l ∈ pySplitNl (pyStrip response), l <:+: response := fun l hl =>
      ((pySplitChar_parts '\n' (pyStrip response)).1 l hl).trans
        (pyStrip_isInfix response)
    have hall : ∀ l ∈ pySplitNl (pyStrip response),
        pyStartsWith l dLabel = false ∧ pyStartsWith l cLabel = false ∧
          pyStartsWith l rLabel = false := by
      intro l hl
      refine ⟨?_, ?_, ?_⟩
      · cases hb : pyStartsWith l dLabel
        · rfl
        · exact absurd
            ((((pyStartsWith_iff l dLabel).1 hb).isInfix).trans (hinf l hl)) h1
      · cases hb : pyStartsWith l cLabel
        · rfl
        · exact absurd
            ((((pyStartsWith_iff l cLabel).1 hb).isInfix).trans (hinf l hl)) h2
      · cases hb : pyStartsWith l rLabel
        · rfl
        · exact absurd
            ((((pyStartsWith_iff l rLabel).1 hb).isInfix).trans (hinf l hl)) h3
    unfold parse_ai_response parseLines
    rw [foldl_parseLine_nolabel _ _ hall rfl]
    rfl

/-- Witness for C2: each part applied at a concrete input. -/
theorem C2_parse_ai_response_witness :
    (parseLines ([ofStr "DECISION: A"] ++ (dLabel ++ ofStr " B") :: [ofStr "tail"])).decision =
        pyStrip (pyReplace dLabel (ofStr "") (dLabel ++ ofStr " B")) ∧
    parse_ai_response (List.replicate 2 '\n' ++
        mk3 (rLabel ++ ofStr " hi") (cLabel ++ ofStr " ls") (dLabel ++ ofStr " COMMAND")) =
      (pyStrip (pyReplace dLabel (ofStr "") (dLabel ++ ofStr " COMMAND")),
       pyStrip (pyReplace cLabel (ofStr "") (cLabel ++ ofStr " ls")),
       pyStrip (pyReplace rLabel (ofStr "") (rLabel ++ ofStr " hi"))) ∧
    parse_ai_response (ofStr "just chatting") =
      (ofStr "CONVERSATION", ofStr "NONE", ofStr "") := by
  refine ⟨?_, ?_, ?_⟩
  · exact C2_parse_ai_response.1.1 [ofStr "DECISION: A"] [ofStr "tail"]
      (ofStr " B") (by decide)
  · exact C2_parse_ai_response.2.1 2 (ofStr " COMMAND") (ofStr " ls") (ofStr " hi")
      (by decide) (by decide) (by decide) _ (by simp)
  · exact C2_parse_ai_response.2.2 (ofStr "just chatting") (by decide) (by decide)
      (by decide)

/-! ## Support lemmas for the directory tracker -/

theorem trackStep_sep (exec : PyStr → ExecOutcome) (st : TrackSt) (part : PyStr)
    (hp : part = ofStr ";" ∨ part = ofStr "&&") :
    trackStep exec st part = (st, false) := by
  unfold trackStep
  rw [if_pos hp]

theorem trackStep_noncd (exec : PyStr → ExecOutcome) (st : TrackSt) (part : PyStr)
    (h1 : ¬(part = ofStr ";" ∨ part = ofStr "&&"))
    (h2 : pyStartsWith part (ofStr "cd ") = false) :
    trackStep exec st part = ({ st with only_cd := false }, false) := by
  unfold trackStep
  rw [if_neg h1, if_neg (by rw [h2]; exact Bool.false_ne_true)]

theorem trackStep_cd_base (exec : PyStr → ExecOutcome) (d : PyStr) (oc : Bool)
    (log : List PyStr) (t : PyStr) (ht : token t) (hd : d ≠ []) :
    trackStep exec ⟨some d, oc, log⟩ (ofStr "cd " ++ t) =
      probeStep exec ⟨some d, oc, log⟩ (probeCmd2 d t) (pyNormpath (pyJoin d t)) := by
  obtain ⟨htne, hns, _⟩ := token_facts t ht
  have hnot : ¬((ofStr "cd " ++ t : PyStr) = ofStr ";" ∨
      (ofStr "cd " ++ t : PyStr) = ofStr "&&") := by
    rw [show (ofStr "cd " ++ t : PyStr) = 'c' :: 'd' :: ' ' :: t from rfl]
    exact not_or.2 (ne_sep_of_head 'c' _ (by decide) (by decide))
  unfold trackStep
  rw [if_neg hnot, if_pos (pyStartsWith_append (ofStr "cd ") t),
    shlexSplit_cd t htne hns]
  simp only [List.get?]
  rw [if_pos hd]

theorem probeStep_raises (exec : PyStr → ExecOutcome) (st : TrackSt) (ec fb msg : PyStr)
    (h : exec ec = .raises msg) :
    probeStep exec st ec fb = ({ st with log := st.log ++ [ec] }, false) := by
  unfold probeStep
  rw [h]

theorem probeStep_fail (exec : PyStr → ExecOutcome) (st : TrackSt) (ec fb out err : PyStr)
    (h : exec ec = .returns out err) (hfail : out = [] ∨ err ≠ []) :
    probeStep exec st ec fb =
      ({ st with last_dir := some fb, log := st.log ++ [ec] }, true) := by
  unfold probeStep
  rw [h]
  dsimp only
  rw [if_neg (by
    intro hc
    rcases hfail with h1 | h1
    · exact hc.1 h1
    · exact h1 hc.2)]

theorem probeStep_ok (exec : PyStr → ExecOutcome) (st : TrackSt) (ec fb res : PyStr)
    (h : exec ec = .returns (res ++ ofStr "\n") (ofStr ""))
    (hs : solid res) (hnl : '\n' ∉ res) (hcr : '\x0d' ∉ res) :
    probeStep exec st ec fb =
      ({ st with last_dir := some res, log := st.log ++ [ec] }, false) := by
  unfold probeStep
  rw [h]
  dsimp only
  rw [if_pos ⟨by rw [show (ofStr "\n" : PyStr) = ['\n'] from rfl]; simp, rfl⟩,
    strippedLastLine_probe res hs hnl hcr]

theorem trackLoop_cons (exec : PyStr → ExecOutcome) (p : PyStr) (rest : List PyStr)
    (st : TrackSt) :
    trackLoop exec (p :: rest) st =
      if (trackStep exec st p).2 then (trackStep exec st p).1
      else trackLoop exec rest (trackStep exec st p).1 := rfl

theorem trackLoop_single (exec : PyStr → ExecOutcome) (p : PyStr) (st : TrackSt) :
    trackLoop exec [p] st = (trackStep exec st p).1 := by
  rw [trackLoop_cons]
  split
  · rfl
  · rfl

theorem pyTruthyOpt_some (s : PyStr) (h : s ≠ []) : pyTruthyOpt (some s) = true := by
  unfold pyTruthyOpt
  simp [h]

theorem token_cd_sep (t : PyStr) (ht : token t) :
    ∀ c ∈ (ofStr "cd " ++ t : PyStr), c ≠ ';' ∧ c ≠ '&' := by
  intro c hc
  rw [show (ofStr "cd " ++ t : PyStr) = 'c' :: 'd' :: ' ' :: t from rfl] at hc
  simp only [List.mem_cons] at hc
  rcases hc with rfl | rfl | rfl | hc
  · exact ⟨by decide, by decide⟩
  · exact ⟨by decide, by decide⟩
  · exact ⟨by decide, by decide⟩
  · exact (token_facts t ht).2.2 c hc

theorem ssh_single_cd (exec : PyStr → ExecOutcome) (d t res : PyStr) (ch : Option Unit)
    (ht : token t) (hd : d ≠ [])
    (hres : solid res) (hnl : '\n' ∉ res) (hcr : '\x0d' ∉ res)
    (hprobe : exec (probeCmd2 d t) = .returns (res ++ ofStr "\n") (ofStr "")) :
    SSHClient.execute_command exec ⟨true, some d, ch⟩ (ofStr "cd " ++ t) =
      ⟨true, some res, some res, [probeCmd2 d t]⟩ := by
  unfold SSHClient.execute_command
  rw [if_neg (by simp)]
  rw [split_commands_single _ (solid_cd_append t ht) (token_cd_sep t ht)]
  dsimp only
  rw [trackLoop_single, trackStep_cd_base exec d true [] t ht hd,
    probeStep_ok exec _ _ _ res hprobe hres hnl hcr]
  dsimp only
  rw [if_pos (pyTruthyOpt_some res hres.1)]
  rw [if_pos ⟨rfl, rfl, pyStartsWith_append (ofStr "cd ") t⟩]
  simp

theorem ssh_single_cd_fallback (exec : PyStr → ExecOutcome) (d t : PyStr)
    (ch : Option Unit) (out err : PyStr) (ht : token t) (hd : d ≠ [])
    (hprobe : exec (probeCmd2 d t) = .returns out err) (hfail : out = [] ∨ err ≠ []) :
    SSHClient.execute_command exec ⟨true, some d, ch⟩ (ofStr "cd " ++ t) =
      ⟨true, some (pyNormpath (pyJoin d t)), some (pyNormpath (pyJoin d t)),
       [probeCmd2 d t]⟩ := by
  unfold SSHClient.execute_command
  rw [if_neg (by simp)]
  rw [split_commands_single _ (solid_cd_append t ht) (token_cd_sep t ht)]
  dsimp only
  rw [trackLoop_single, trackStep_cd_base exec d true [] t ht hd,
    probeStep_fail exec _ _ _ out err hprobe hfail]
  dsimp only
  rw [if_pos (pyTruthyOpt_some _ (pyNormpath_ne_nil _))]
  rw [if_pos ⟨rfl, rfl, pyStartsWith_append (ofStr "cd ") t⟩]
  simp

theorem trackLoop_break (exec : PyStr → ExecOutcome) (p : PyStr) (rest : List PyStr)
    (st : TrackSt) (h : (trackStep exec st p).2 = true) :
    trackLoop exec (p :: rest) st = (trackStep exec st p).1 := by
  rw [trackLoop_cons, if_pos h]

theorem trackLoop_go (exec : PyStr → ExecOutcome) (p : PyStr) (rest : List PyStr)
    (st : TrackSt) (h : (trackStep exec st p).2 = false) :
    trackLoop exec (p :: rest) st = trackLoop exec rest (trackStep exec st p).1 := by
  rw [trackLoop_cons, if_neg (by rw [h]; exact Bool.false_ne_true)]

/-! ## Claim C1 -/

/-- C1 counterexample: on the Local backend a single successful
`cd /tmp` updates the tracked directory but returns the empty string as
its output, not the resolved path, refuting the claim that both backends
return the resolved path as the call's output. -/
theorem C1_counterexample_local_output :
    LocalClient.execute_command (fun _ => .ok) (ofStr "/root")
        (fun _ => .finished (ofStr "") (ofStr "")) ⟨ofStr "/", none⟩
        (ofStr "cd /tmp") =
      ⟨true, ofStr "", ⟨ofStr "/tmp", none⟩, []⟩ ∧
    (ofStr "" : PyStr) ≠ ofStr "/tmp" := by
  decide

/-- C1 (amended): a command that is a single `cd` segment is treated as
directory-navigation-only on both backends.  Local: when the change
succeeds, the tracked directory becomes the normalized resolution of the
target against the prior directory, nothing is run through
`subprocess.run`, and the call returns success with EMPTY output.
Remote: the only transport submission is the directory probe, and the
call returns success with the probe-confirmed resolved path both as its
output and as the new tracked directory. -/
theorem C1_single_cd_navigation :
    (∀ (fs : PyStr → ChdirOutcome) (home : PyStr) (run : PyStr → RunOutcome)
        (st : LocalSt) (command : PyStr),
      pyStartsWith (pyLower (pyStrip command)) (ofStr "cd ") = true →
      fs (localCdTarget home st.current_directory (pyStrip command)) = .ok →
      LocalClient.execute_command fs home run st command =
        ⟨true, ofStr "",
         { st with current_directory :=
             pyNormpath (localCdTarget home st.current_directory (pyStrip command)) },
         []⟩) ∧
    (∀ (exec : PyStr → ExecOutcome) (d t res : PyStr) (ch : Option Unit),
      token t → d ≠ [] → solid res → '\n' ∉ res → '\x0d' ∉ res →
      exec (probeCmd2 d t) = .returns (res ++ ofStr "\n") (ofStr "") →
      SSHClient.execute_command exec ⟨true, some d, ch⟩ (ofStr "cd " ++ t) =
        ⟨true, some res, some res, [probeCmd2 d t]⟩) := by
  constructor
  · intro fs home run st command hsw hok
    unfold LocalClient.execute_command
    dsimp only
    rw [if_pos hsw, hok]
  · intro exec d t res ch ht hd hres hnl hcr hprobe
    exact ssh_single_cd exec d t res ch ht hd hres hnl hcr hprobe

/-- Witness for C1: both backends applied at a concrete single `cd`. -/
theorem C1_single_cd_navigation_witness :
    LocalClient.execute_command (fun _ => .ok) (ofStr "/root")
        (fun _ => .finished (ofStr "") (ofStr "")) ⟨ofStr "/a", none⟩
        (ofStr "cd b") =
      ⟨true, ofStr "", ⟨ofStr "/a/b", none⟩, []⟩ ∧
    SSHClient.execute_command
        (fun s => if s = probeCmd2 (ofStr "/u") (ofStr "b")
          then .returns (ofStr "/u/b\n") (ofStr "") else .raises (ofStr "x"))
        ⟨true, some (ofStr "/u"), none⟩ (ofStr "cd " ++ ofStr "b") =
      ⟨true, some (ofStr "/u/b"), some (ofStr "/u/b"),
       [probeCmd2 (ofStr "/u") (ofStr "b")]⟩ := by
  constructor
  · exact C1_single_cd_navigation.1 (fun _ => .ok) (ofStr "/root")
      (fun _ => .finished (ofStr "") (ofStr "")) ⟨ofStr "/a", none⟩
      (ofStr "cd b") (by decide) (by decide)
  · exact C1_single_cd_navigation.2
      (fun s => if s = probeCmd2 (ofStr "/u") (ofStr "b")
        then .returns (ofStr "/u/b\n") (ofStr "") else .raises (ofStr "x"))
      (ofStr "/u") (ofStr "b") (ofStr "/u/b") none (by decide) (by decide)
      (by decide) (by decide) (by decide) (by decide)

/-! ## Claim C3 -/

/-- C3 counterexample: a configured maximum of 0 is kept as 0 (only
negative values reset to the default), so an output of length 1 is cut
to zero characters plus the marker instead of being left intact. -/
theorem C3_counterexample_zero_max :
    truncate_output 0 (ofStr "x") =
      ofStr "\n... (output truncated, 1 chars total)" ∧
    truncate_output 0 (ofStr "x") ≠ ofStr "x" := by
  decide

/-- C3 (amended): output longer than the effective maximum is truncated
to exactly that many characters plus a marker stating the original
length; a configured maximum below zero (not at zero) is treated as the
default 150000; output not exceeding the effective maximum is returned
unchanged. -/
theorem C3_truncation :
    ∀ (m : Int) (out : PyStr),
      (m < 0 → truncate_output m out = truncate_output (MAX_OUTPUT_CHARS : Int) out) ∧
      (0 ≤ m → (m : Int) < (out.length : Int) →
        truncate_output m out =
          out.take m.toNat ++ ofStr "\n... (output truncated, " ++
            ofStr (toString out.length) ++ ofStr " chars total)" ∧
        (out.take m.toNat).length = m.toNat) ∧
      (0 ≤ m → (out.length : Int) ≤ m → truncate_output m out = out) := by
  intro m out
  have hnn : effectiveMax (MAX_OUTPUT_CHARS : Int) = (MAX_OUTPUT_CHARS : Int) := by
    unfold effectiveMax MAX_OUTPUT_CHARS
    rw [if_neg (by omega)]
  refine ⟨?_, ?_, ?_⟩
  · intro hm
    have he : effectiveMax m = (MAX_OUTPUT_CHARS : Int) := by
      unfold effectiveMax
      rw [if_pos hm]
    unfold truncate_output
    rw [he, hnn]
  · intro hm hlen
    have he : effectiveMax m = m := by
      unfold effectiveMax
      rw [if_neg (by omega)]
    constructor
    · unfold truncate_output
      rw [he, if_pos (by omega)]
    · rw [List.length_take]
      omega
  · intro hm hlen
    have he : effectiveMax m = m := by
      unfold effectiveMax
      rw [if_neg (by omega)]
    unfold truncate_output
    rw [he, if_neg (by omega)]

/-- Witness for C3: the amended statement applied at concrete maxima. -/
theorem C3_truncation_witness :
    truncate_output (-7) (ofStr "abc") = truncate_output (MAX_OUTPUT_CHARS : Int) (ofStr "abc") ∧
    truncate_output 3 (ofStr "abcdef") =
      (ofStr "abcdef").take 3 ++ ofStr "\n... (output truncated, " ++
        ofStr (toString (ofStr "abcdef").length) ++ ofStr " chars total)" ∧
    truncate_output 9 (ofStr "abcdef") = ofStr "abcdef" := by
  refine ⟨?_, ?_, ?_⟩
  · exact (C3_truncation (-7) (ofStr "abc")).1 (by decide)
  · exact ((C3_truncation 3 (ofStr "abcdef")).2.1 (by decide) (by decide)).1
  · exact (C3_truncation 9 (ofStr "abcdef")).2.2 (by decide) (by decide)

/-! ## Claim C4 -/

/-- C4: when the model client's generate call fails, the dispatch turn is
aborted before any command execution (nothing is submitted to the
backend), the failure is reported as an error event, the input channel is
re-enabled, and the conversation history is exactly what it was when the
dispatch turn began. -/
theorem C4_generate_failure_aborts :
    ∀ (aiName aiRole : PyStr) (maxOutput : Int) (gen : PyStr → Bool × PyStr)
      (dirBefore : Option PyStr) (backend : PyStr → Bool × PyStr × Option PyStr)
      (history : List Turn) (request : PyStr),
      (gen (build_prompt aiName aiRole history request)).1 = false →
      process_ai_command aiName aiRole maxOutput gen dirBefore backend history
          request =
        ⟨history,
         [(ofStr "ERROR", (gen (build_prompt aiName aiRole history request)).2,
           ofStr "system")], [], true⟩ := by
  intro aiName aiRole maxOutput gen dirBefore backend history request h
  unfold process_ai_command
  dsimp only
  rw [if_pos (by rw [h]; exact Bool.false_ne_true)]

/-- Witness for C4: a failing generate call at a concrete state. -/
theorem C4_generate_failure_aborts_witness :
    process_ai_command (ofStr "J") (ofStr "X") 150000
        (fun _ => (false, ofStr "boom")) none (fun _ => (true, ofStr "", none))
        [⟨ofStr "user", ofStr "hi"⟩] (ofStr "req") =
      ⟨[⟨ofStr "user", ofStr "hi"⟩], [(ofStr "ERROR", ofStr "boom", ofStr "system")],
       [], true⟩ :=
  C4_generate_failure_aborts (ofStr "J") (ofStr "X") 150000
    (fun _ => (false, ofStr "boom")) none (fun _ => (true, ofStr "", none))
    [⟨ofStr "user", ofStr "hi"⟩] (ofStr "req") rfl

/-! ## Claim C5 -/

/-- C5 counterexample: when the probe for the first `cd` segment RAISES,
the tracker does not stop — it keeps tracking and probes the second
`cd` segment from the unchanged base directory, and the tracked
directory ends at the second probe's result, not at the syntactic
estimate `normalize(join(last_confirmed_dir, target))` of the raising
segment. -/
theorem C5_counterexample_probe_raise :
    SSHClient.execute_command
        (fun s => if s = probeCmd2 (ofStr "/a") (ofStr "x") then .raises (ofStr "boom")
          else if s = probeCmd2 (ofStr "/a") (ofStr "y")
            then .returns (ofStr "/a/y\n") (ofStr "")
          else .returns (ofStr "hi\n") (ofStr ""))
        ⟨true, some (ofStr "/a"), none⟩ (ofStr "cd x && cd y && echo hi") =
      ⟨true, some (ofStr "hi\n"), some (ofStr "/a/y"),
       [probeCmd2 (ofStr "/a") (ofStr "x"), probeCmd2 (ofStr "/a") (ofStr "y"),
        ofStr "cd /a/y && cd x && cd y && echo hi"]⟩ ∧
    some (ofStr "/a/y") ≠ some (pyNormpath (pyJoin (ofStr "/a") (ofStr "x"))) := by
  decide

/-- C5 (amended): on the Remote backend, when a `cd` segment's probe
RETURNS with empty stdout or non-empty stderr, the tracker stops (no
further probe is issued for later segments), falls back to the syntactic
estimate `normalize(join(last_confirmed_dir, target))`, and the remaining
segments are not aborted — the full command is still submitted to the
transport.  When the probe RAISES instead, that segment is skipped
without any fallback and tracking continues from the last confirmed
directory. -/
theorem C5_probe_failure_degrades :
    (∀ (exec : PyStr → ExecOutcome) (d t1 t2 : PyStr) (ch : Option Unit)
        (out err : PyStr),
      token t1 → token t2 → d ≠ [] →
      exec (probeCmd2 d t1) = .returns out err → (out = [] ∨ err ≠ []) →
      (SSHClient.execute_command exec ⟨true, some d, ch⟩
          (ofStr "cd " ++ t1 ++ ofStr " && " ++ (ofStr "cd " ++ t2))).dir =
        some (pyNormpath (pyJoin d t1)) ∧
      (SSHClient.execute_command exec ⟨true, some d, ch⟩
          (ofStr "cd " ++ t1 ++ ofStr " && " ++ (ofStr "cd " ++ t2))).log =
        [probeCmd2 d t1,
         ofStr "cd " ++ shlexQuote (pyNormpath (pyJoin d t1)) ++ ofStr " && " ++
           (ofStr "cd " ++ t1 ++ ofStr " && " ++ (ofStr "cd " ++ t2))]) ∧
    (∀ (exec : PyStr → ExecOutcome) (d t1 t2 res : PyStr) (ch : Option Unit)
        (msg : PyStr),
      token t1 → token t2 → d ≠ [] → solid res → '\n' ∉ res → '\x0d' ∉ res →
      exec (probeCmd2 d t1) = .raises msg →
      exec (probeCmd2 d t2) = .returns (res ++ ofStr "\n") (ofStr "") →
      (SSHClient.execute_command exec ⟨true, some d, ch⟩
          (ofStr "cd " ++ t1 ++ ofStr " && " ++ (ofStr "cd " ++ t2))).dir =
        some res ∧
      (SSHClient.execute_command exec ⟨true, some d, ch⟩
          (ofStr "cd " ++ t1 ++ ofStr " && " ++ (ofStr "cd " ++ t2))).log =
        [probeCmd2 d t1, probeCmd2 d t2,
         ofStr "cd " ++ shlexQuote res ++ ofStr " && " ++
           (ofStr "cd " ++ t1 ++ ofStr " && " ++ (ofStr "cd " ++ t2))]) := by
  constructor
  · intro exec d t1 t2 ch out err ht1 ht2 hd hprobe hfail
    have hsplit := split_commands_amp (ofStr "cd " ++ t1) (ofStr "cd " ++ t2)
      (solid_cd_append t1 ht1) (solid_cd_append t2 ht2)
      (token_cd_sep t1 ht1) (token_cd_sep t2 ht2)
    unfold SSHClient.execute_command
    rw [if_neg (by simp), hsplit]
    dsimp only
    rw [trackLoop_break _ _ _ _ (by
      rw [trackStep_cd_base exec d true [] t1 ht1 hd,
        probeStep_fail exec _ _ _ out err hprobe hfail])]
    rw [trackStep_cd_base exec d true [] t1 ht1 hd,
      probeStep_fail exec _ _ _ out err hprobe hfail]
    dsimp only
    rw [if_pos (pyTruthyOpt_some _ (pyNormpath_ne_nil _))]
    rw [if_neg (by simp)]
    rw [if_pos (pyTruthyOpt_some _ (pyNormpath_ne_nil _))]
    simp only [Option.getD_some]
    rcases hfull : exec (ofStr "cd " ++ shlexQuote (pyNormpath (pyJoin d t1)) ++
        ofStr " && " ++ ((ofStr "cd " ++ t1) ++ ofStr " && " ++ (ofStr "cd " ++ t2)))
        with ⟨o2, e2⟩ | ⟨msg⟩
    · exact ⟨rfl, by simp⟩
    · exact ⟨rfl, by simp⟩
  · intro exec d t1 t2 res ch msg ht1 ht2 hd hres hnl hcr hraise hprobe
    have hsplit := split_commands_amp (ofStr "cd " ++ t1) (ofStr "cd " ++ t2)
      (solid_cd_append t1 ht1) (solid_cd_append t2 ht2)
      (token_cd_sep t1 ht1) (token_cd_sep t2 ht2)
    unfold SSHClient.execute_command
    rw [if_neg (by simp), hsplit]
    dsimp only
    rw [trackLoop_go _ _ _ _ (by
      rw [trackStep_cd_base exec d true [] t1 ht1 hd,
        probeStep_raises exec _ _ _ msg hraise])]
    rw [trackStep_cd_base exec d true [] t1 ht1 hd,
      probeStep_raises exec _ _ _ msg hraise]
    dsimp only
    rw [trackLoop_go _ _ _ _ (by rw [trackStep_sep exec _ _ (Or.inr rfl)])]
    rw [trackStep_sep exec _ _ (Or.inr rfl)]
    dsimp only
    rw [trackLoop_single, trackStep_cd_base exec d true _ t2 ht2 hd,
      probeStep_ok exec _ _ _ res hprobe hres hnl hcr]
    dsimp only
    rw [if_pos (pyTruthyOpt_some res hres.1)]
    rw [if_neg (by simp)]
    rw [if_pos (pyTruthyOpt_some res hres.1)]
    simp only [Option.getD_some]
    rcases hfull : exec (ofStr "cd " ++ shlexQuote res ++
        ofStr " && " ++ ((ofStr "cd " ++ t1) ++ ofStr " && " ++ (ofStr "cd " ++ t2)))
        with ⟨o2, e2⟩ | ⟨msg2⟩
    · exact ⟨rfl, by simp⟩
    · exact ⟨rfl, by simp⟩

/-- Witness for C5: both failure modes at concrete inputs. -/
theorem C5_probe_failure_degrades_witness :
    (SSHClient.execute_command
        (fun s => if s = probeCmd2 (ofStr "/a") (ofStr "x")
          then .returns (ofStr "") (ofStr "no such dir")
          else .returns (ofStr "done\n") (ofStr ""))
        ⟨true, some (ofStr "/a"), none⟩
        (ofStr "cd " ++ ofStr "x" ++ ofStr " && " ++
          (ofStr "cd " ++ ofStr "y"))).dir = some (ofStr "/a/x") ∧
    (SSHClient.execute_command
        (fun s => if s = probeCmd2 (ofStr "/a") (ofStr "x") then .raises (ofStr "boom")
          else if s = probeCmd2 (ofStr "/a") (ofStr "y")
            then .returns (ofStr "/a/y" ++ ofStr "\n") (ofStr "")
          else .returns (ofStr "done\n") (ofStr ""))
        ⟨true, some (ofStr "/a"), none⟩
        (ofStr "cd " ++ ofStr "x" ++ ofStr " && " ++
          (ofStr "cd " ++ ofStr "y"))).dir = some (ofStr "/a/y") := by
  constructor
  · have h := (C5_probe_failure_degrades.1
      (fun s => if s = probeCmd2 (ofStr "/a") (ofStr "x")
        then .returns (ofStr "") (ofStr "no such dir")
        else .returns (ofStr "done\n") (ofStr ""))
      (ofStr "/a") (ofStr "x") (ofStr "y") none (ofStr "") (ofStr "no such dir")
      (by decide) (by decide) (by decide) (by decide) (by decide)).1
    rw [h]
    decide
  · have h := (C5_probe_failure_degrades.2
      (fun s => if s = probeCmd2 (ofStr "/a") (ofStr "x") then .raises (ofStr "boom")
        else if s = probeCmd2 (ofStr "/a") (ofStr "y")
          then .returns (ofStr "/a/y" ++ ofStr "\n") (ofStr "")
        else .returns (ofStr "done\n") (ofStr ""))
      (ofStr "/a") (ofStr "x") (ofStr "y") (ofStr "/a/y") none (ofStr "boom")
      (by decide) (by decide) (by decide) (by decide) (by decide) (by decide)
      (by decide) (by decide)).1
    exact h

/-! ## Claim C6 -/

/-- C6 counterexample: on the Local backend a bare `cd` with no argument
is not recognised as directory navigation (the stripped command does not
start with the three characters of the `cd` label plus a space), so it is
run through `subprocess.run` and the tracked directory stays `/var`
rather than resolving to the home directory `/root`. -/
theorem C6_counterexample_bare_cd :
    LocalClient.execute_command (fun _ => .ok) (ofStr "/root")
        (fun _ => .finished (ofStr "") (ofStr "")) ⟨ofStr "/var", none⟩
        (ofStr "cd") =
      ⟨true, ofStr "", ⟨ofStr "/var", none⟩, [ofStr "cd"]⟩ ∧
    (ofStr "/var" : PyStr) ≠ ofStr "/root" := by
  decide

/-- C6 (amended): only Local `cd ~` resolves the tracked directory to the
home directory.  A bare `cd` with no argument is not treated as directory
navigation on either backend: Local hands it to `subprocess.run` and
Remote to the general transport path, leaving the tracked directory
unchanged.  Remote `cd ~` submits the tilde quoted, so when the probe
fails the tracked directory falls back to the syntactic join of the prior
directory with the literal `~`. -/
theorem C6_cd_home_resolution :
    (∀ (fs : PyStr → ChdirOutcome) (home : PyStr) (run : PyStr → RunOutcome)
        (st : LocalSt),
      isAbs home = true → pyNormpath home = home → fs home = .ok →
      LocalClient.execute_command fs home run st (ofStr "cd ~") =
        ⟨true, ofStr "", { st with current_directory := home }, []⟩) ∧
    (∀ (fs : PyStr → ChdirOutcome) (home : PyStr) (run : PyStr → RunOutcome)
        (st : LocalSt) (out err : PyStr),
      run (ofStr "cd") = .finished out err →
      LocalClient.execute_command fs home run st (ofStr "cd") =
        ⟨true, out ++ err, st, [ofStr "cd"]⟩) ∧
    (∀ (exec : PyStr → ExecOutcome) (d : PyStr) (ch : Option Unit),
      d ≠ [] →
      (SSHClient.execute_command exec ⟨true, some d, ch⟩ (ofStr "cd")).dir =
        some d ∧
      (SSHClient.execute_command exec ⟨true, some d, ch⟩ (ofStr "cd")).log =
        [ofStr "cd " ++ shlexQuote d ++ ofStr " && " ++ ofStr "cd"]) ∧
    (∀ (exec : PyStr → ExecOutcome) (d : PyStr) (ch : Option Unit) (out err : PyStr),
      d ≠ [] →
      exec (probeCmd2 d (ofStr "~")) = .returns out err → (out = [] ∨ err ≠ []) →
      SSHClient.execute_command exec ⟨true, some d, ch⟩ (ofStr "cd ~") =
        ⟨true, some (pyNormpath (pyJoin d (ofStr "~"))),
         some (pyNormpath (pyJoin d (ofStr "~"))), [probeCmd2 d (ofStr "~")]⟩) := by
  refine ⟨?_, ?_, ?_, ?_⟩
  · intro fs home run st habs hnorm hok
    have htarget : localCdTarget home st.current_directory (pyStrip (ofStr "cd ~")) =
        home := by
      unfold localCdTarget
      dsimp only
      rw [show pyStrip ((pyStrip (ofStr "cd ~")).drop 3) = ofStr "~" from rfl]
      rw [if_neg (show ¬(ofStr "~" = ([] : PyStr)) from by decide)]
      rw [show pyExpanduser home (ofStr "~") = home from rfl]
      rw [if_pos habs]
    unfold LocalClient.execute_command
    dsimp only
    rw [if_pos (by decide), htarget, hok, hnorm]
  · intro fs home run st out err hrun
    unfold LocalClient.execute_command
    dsimp only
    rw [if_neg (by decide), hrun]
  · intro exec d ch hd
    have hsplit : split_commands (ofStr "cd") = [ofStr "cd"] := by decide
    unfold SSHClient.execute_command
    rw [if_neg (by simp), hsplit]
    dsimp only
    rw [trackLoop_single, trackStep_noncd exec _ _ (by decide) (by decide)]
    dsimp only
    rw [if_pos (pyTruthyOpt_some d hd)]
    rw [if_neg (by simp)]
    rw [if_pos (pyTruthyOpt_some d hd)]
    simp only [Option.getD_some]
    rcases hfull : exec (ofStr "cd " ++ shlexQuote d ++ ofStr " && " ++ ofStr "cd")
      with ⟨o2, e2⟩ | ⟨msg⟩
    · exact ⟨rfl, by simp⟩
    · exact ⟨rfl, by simp⟩
  · intro exec d ch out err hd hprobe hfail
    rw [show (ofStr "cd ~" : PyStr) = ofStr "cd " ++ ofStr "~" from rfl]
    exact ssh_single_cd_fallback exec d (ofStr "~") ch out err (by decide) hd
      hprobe hfail

/-- Witness for C6: all four parts at concrete inputs. -/
theorem C6_cd_home_resolution_witness :
    LocalClient.execute_command (fun _ => .ok) (ofStr "/root")
        (fun _ => .finished (ofStr "") (ofStr "")) ⟨ofStr "/var", none⟩
        (ofStr "cd ~") =
      ⟨true, ofStr "", ⟨ofStr "/root", none⟩, []⟩ ∧
    LocalClient.execute_command (fun _ => .ok) (ofStr "/root")
        (fun _ => .finished (ofStr "ok") (ofStr "")) ⟨ofStr "/var", none⟩
        (ofStr "cd") =
      ⟨true, ofStr "ok" ++ ofStr "", ⟨ofStr "/var", none⟩, [ofStr "cd"]⟩ ∧
    (SSHClient.execute_command (fun _ => .returns (ofStr "x\n") (ofStr ""))
        ⟨true, some (ofStr "/h"), none⟩ (ofStr "cd")).dir = some (ofStr "/h") ∧
    SSHClient.execute_command (fun _ => .returns (ofStr "") (ofStr "err"))
        ⟨true, some (ofStr "/h"), none⟩ (ofStr "cd ~") =
      ⟨true, some (pyNormpath (pyJoin (ofStr "/h") (ofStr "~"))),
       some (pyNormpath (pyJoin (ofStr "/h") (ofStr "~"))),
       [probeCmd2 (ofStr "/h") (ofStr "~")]⟩ := by
  refine ⟨?_, ?_, ?_, ?_⟩
  · exact C6_cd_home_resolution.1 (fun _ => .ok) (ofStr "/root")
      (fun _ => .finished (ofStr "") (ofStr "")) ⟨ofStr "/var", none⟩
      (by decide) (by decide) (by decide)
  · exact C6_cd_home_resolution.2.1 (fun _ => .ok) (ofStr "/root")
      (fun _ => .finished (ofStr "ok") (ofStr "")) ⟨ofStr "/var", none⟩
      (ofStr "ok") (ofStr "") (by decide)
  · exact (C6_cd_home_resolution.2.2.1 (fun _ => .returns (ofStr "x\n") (ofStr ""))
      (ofStr "/h") none (by decide)).1
  · exact C6_cd_home_resolution.2.2.2 (fun _ => .returns (ofStr "") (ofStr "err"))
      (ofStr "/h") none (ofStr "") (ofStr "err") (by decide) (by decide)
      (by decide)

/-! ## Claim C7 -/

/-- C7: calling interrupt or kill with no command in flight returns
`false` on both backends and leaves the whole client state (connection
state, tracked directory, running handle) unchanged. -/
theorem C7_interrupt_kill_noop :
    ∀ (k1 k2 k3 k4 s1 c1 : Bool) (lst : LocalSt) (sst : SSHSt),
      lst.running_process = none → sst.running_channel = none →
      LocalClient.interrupt_command k1 k2 lst = (false, lst) ∧
      LocalClient.kill_command k3 k4 lst = (false, lst) ∧
      SSHClient.interrupt_command s1 sst = (false, sst) ∧
      SSHClient.kill_command c1 sst = (false, sst) := by
  intro k1 k2 k3 k4 s1 c1 lst sst h1 h2
  refine ⟨?_, ?_, ?_, ?_⟩
  · unfold LocalClient.interrupt_command
    rw [h1]
  · unfold LocalClient.kill_command
    rw [h1]
  · unfold SSHClient.interrupt_command
    rw [h2]
  · unfold SSHClient.kill_command
    rw [h2]

/-- Witness for C7: concrete idle clients. -/
theorem C7_interrupt_kill_noop_witness :
    LocalClient.interrupt_command true true ⟨ofStr "/a", none⟩ =
      (false, ⟨ofStr "/a", none⟩) ∧
    LocalClient.kill_command true true ⟨ofStr "/a", none⟩ =
      (false, ⟨ofStr "/a", none⟩) ∧
    SSHClient.interrupt_command true ⟨true, some (ofStr "/h"), none⟩ =
      (false, ⟨true, some (ofStr "/h"), none⟩) ∧
    SSHClient.kill_command true ⟨true, some (ofStr "/h"), none⟩ =
      (false, ⟨true, some (ofStr "/h"), none⟩) :=
  C7_interrupt_kill_noop true true true true true true ⟨ofStr "/a", none⟩
    ⟨true, some (ofStr "/h"), none⟩ rfl rfl

/-! ## Claim C8 -/

/-- C8: the completion cycler does not cycle.  After the first Tab on
input `t` applies candidate `alpha`, the input text (`alpha`) no longer
equals the cached query text (`t`), so the second Tab takes the
fresh-fetch branch — it fetches completions for `alpha` and applies the
first result (`alphafile`) — instead of advancing the cycle index to the
second cached candidate `beta`.  This contradicts both the claimed
`a, b, c, a` cycling order and the code's own "Press Tab again to
cycle." hint. -/
theorem C8_tab_cycle_refetches :
    (handle_tab_completion
        (fun w => if w = ofStr "t" then [ofStr "alpha", ofStr "beta", ofStr "gamma"]
          else if w = ofStr "alpha" then [ofStr "alphafile"] else [])
        ⟨ofStr "t", 1, [], 0, ofStr "", 0⟩ =
      ⟨ofStr "alpha", 5, [ofStr "alpha", ofStr "beta", ofStr "gamma"], 0,
       ofStr "t", 1⟩) ∧
    (handle_tab_completion
        (fun w => if w = ofStr "t" then [ofStr "alpha", ofStr "beta", ofStr "gamma"]
          else if w = ofStr "alpha" then [ofStr "alphafile"] else [])
        ⟨ofStr "alpha", 5, [ofStr "alpha", ofStr "beta", ofStr "gamma"], 0,
         ofStr "t", 1⟩ =
      ⟨ofStr "alphafile", 9, [ofStr "alphafile"], 0, ofStr "alpha", 1⟩) ∧
    (ofStr "alphafile" : PyStr) ≠ ofStr "beta" := by
  decide

/-! ## Claim C9 -/

/-- C9: the prompt built for a new request depends on the conversation
history only through its at most five most recent turns, so the prompt's
history context is bounded no matter how long the conversation grows. -/
theorem C9_prompt_context_bounded :
    ∀ (aiName aiRole request : PyStr) (history : List Turn),
      build_prompt aiName aiRole history request =
        build_prompt aiName aiRole (pyLastSlice 5 history) request ∧
      (pyLastSlice 5 history).length ≤ 5 ∧
      pyLastSlice 5 history <:+ history := by
  intro aiName aiRole request history
  refine ⟨?_, ?_, List.drop_suffix _ _⟩
  · have hctx : build_context history = build_context (pyLastSlice 5 history) := by
      unfold build_context
      rcases history with _ | ⟨a, t⟩
      · rfl
      · have hne : pyLastSlice 5 (a :: t) ≠ [] := by
          intro e
          have hlen := congrArg List.length e
          simp only [pyLastSlice, List.length_drop, List.length_nil,
            List.length_cons] at hlen
          omega
        have hidem : pyLastSlice 5 (pyLastSlice 5 (a :: t)) = pyLastSlice 5 (a :: t) := by
          unfold pyLastSlice
          rw [List.length_drop]
          have hz : (a :: t).length - ((a :: t).length - 5) - 5 = 0 := by omega
          rw [hz, List.drop_zero]
        rw [if_neg (by simp), if_neg hne, hidem]
    unfold build_prompt
    rw [hctx]
  · unfold pyLastSlice
    rw [List.length_drop]
    omega

/-! ## Claim C10 -/

/-- C10: when a Local `cd` fails (target missing, permission denied, or
any other error), `execute_command` still reports success — the failure
is surfaced only as a shell-style message in the output — and the
tracked directory is left unchanged; nothing reaches `subprocess.run`. -/
theorem C10_local_cd_failure_soft :
    ∀ (fs : PyStr → ChdirOutcome) (home : PyStr) (run : PyStr → RunOutcome)
      (st : LocalSt) (command : PyStr),
      pyStartsWith (pyLower (pyStrip command)) (ofStr "cd ") = true →
      (fs (localCdTarget home st.current_directory (pyStrip command)) = .notFound →
        LocalClient.execute_command fs home run st command =
          ⟨true,
           ofStr "cd: " ++ localCdTarget home st.current_directory (pyStrip command) ++
             ofStr ": No such file or directory", st, []⟩) ∧
      (fs (localCdTarget home st.current_directory (pyStrip command)) = .permission →
        LocalClient.execute_command fs home run st command =
          ⟨true,
           ofStr "cd: " ++ localCdTarget home st.current_directory (pyStrip command) ++
             ofStr ": Permission denied", st, []⟩) ∧
      (∀ msg, fs (localCdTarget home st.current_directory (pyStrip command)) =
          .failure msg →
        LocalClient.execute_command fs home run st command =
          ⟨true, ofStr "cd: " ++ msg, st, []⟩) := by
  intro fs home run st command hsw
  refine ⟨?_, ?_, ?_⟩
  · intro hfs
    unfold LocalClient.execute_command
    dsimp only
    rw [if_pos hsw, hfs]
  · intro hfs
    unfold LocalClient.execute_command
    dsimp only
    rw [if_pos hsw, hfs]
  · intro msg hfs
    unfold LocalClient.execute_command
    dsimp only
    rw [if_pos hsw, hfs]

/-- Witness for C10: the three failure modes at concrete inputs. -/
theorem C10_local_cd_failure_soft_witness :
    LocalClient.execute_command (fun _ => .notFound) (ofStr "/root")
        (fun _ => .finished (ofStr "") (ofStr "")) ⟨ofStr "/", none⟩
        (ofStr "cd nope") =
      ⟨true, ofStr "cd: /nope: No such file or directory", ⟨ofStr "/", none⟩, []⟩ ∧
    LocalClient.execute_command (fun _ => .permission) (ofStr "/root")
        (fun _ => .finished (ofStr "") (ofStr "")) ⟨ofStr "/", none⟩
        (ofStr "cd sec") =
      ⟨true, ofStr "cd: /sec: Permission denied", ⟨ofStr "/", none⟩, []⟩ ∧
    LocalClient.execute_command (fun _ => .failure (ofStr "weird")) (ofStr "/root")
        (fun _ => .finished (ofStr "") (ofStr "")) ⟨ofStr "/", none⟩
        (ofStr "cd odd") =
      ⟨true, ofStr "cd: weird", ⟨ofStr "/", none⟩, []⟩ := by
  refine ⟨?_, ?_, ?_⟩
  · have h := (C10_local_cd_failure_soft (fun _ => .notFound) (ofStr "/root")
      (fun _ => .finished (ofStr "") (ofStr "")) ⟨ofStr "/", none⟩
      (ofStr "cd nope") (by decide)).1 rfl
    rw [h]
    decide
  · have h := (C10_local_cd_failure_soft (fun _ => .permission) (ofStr "/root")
      (fun _ => .finished (ofStr "") (ofStr "")) ⟨ofStr "/", none⟩
      (ofStr "cd sec") (by decide)).2.1 rfl
    rw [h]
    decide
  · have h := (C10_local_cd_failure_soft (fun _ => .failure (ofStr "weird"))
      (ofStr "/root") (fun _ => .finished (ofStr "") (ofStr "")) ⟨ofStr "/", none⟩
      (ofStr "cd odd") (by decide)).2.2 (ofStr "weird") rfl
    rw [h]
    decide

end AITerminal
